import Mathlib

/-!
# slogging: handler composition (async dispatch, parallel fan-out, pretty rendering)

A shallow embedding of `async.go`, `parallel.go` and `pretty.go`.

* Handlers that come from outside the package are values of an arbitrary carrier
  type `H` together with a dictionary `Handler σ H` giving the four methods of the
  `slog.Handler` interface.  `Handle` is a state transformer on a world `σ`, so a
  child may perform any effect and may answer differently in different worlds.
  The `context.Context` argument is forwarded unchanged by every method of the
  package and is therefore part of the child behaviour.
* Which children a wrapper really calls is observed with spy children (`Spy`),
  the way a test double would observe it: a spy forwards to the wrapped child and
  appends one entry to a call log kept in the world.
* Go maps are reference values.  The pretty handler keeps its fixed attributes in
  a map that lives in a heap (`Heap`) and is addressed by the handler; `range`
  over a map visits the entries in an order chosen by the runtime (`RangeOrder`).
* A `go` statement starts a goroutine that runs later.  The async handler records
  the started call in its world (`Started`); the goroutine of the pretty handler is
  run by a scheduler that interleaves atomic steps (Lock, each write, Unlock) of two
  goroutines in any order (`Pair.run`).
-/

namespace Slogging

/-! ## Records, attributes, values (package log/slog) -/

/-- The type slog.Level is an integer severity; larger is more severe. -/
abbrev Level := Int

def LevelDebug : Level := -4
def LevelInfo : Level := 0
def LevelWarn : Level := 4
def LevelError : Level := 8

/-- A Go error value, identified by its message; `none : Option Error` is the nil error. -/
abbrev Error := String

/-- The kinds of a slog.Value. -/
inductive Kind where
  | KindAny | KindBool | KindDuration | KindFloat64 | KindInt64
  | KindString | KindTime | KindUint64 | KindGroup | KindLogValuer
  deriving DecidableEq, Repr

/-- The dynamic value held by a slog.Value of kind Any, as far as `pretty.go` can
tell the cases apart: a `[]byte`, or anything else (carried by its `fmt` text). -/
inductive Dynamic where
  | bytes (b : List UInt8)
  | other (text : String)
  deriving DecidableEq, Repr

/-- A slog.Value.  Kinds whose text form is produced by the Go runtime formatters
(floats, durations, times, groups, LogValuers) carry that text. -/
inductive Value where
  | StringValue (s : String)
  | Int64Value (i : Int)
  | Uint64Value (n : Nat)
  | BoolValue (b : Bool)
  | Float64Value (text : String)
  | DurationValue (text : String)
  | TimeValue (text : String)
  | GroupValue (text : String)
  | LogValuerValue (text : String)
  | AnyValue (d : Dynamic)
  deriving DecidableEq, Repr

/-- The method Value.Kind. -/
def Value.Kind : Value → Kind
  | .StringValue _ => .KindString
  | .Int64Value _ => .KindInt64
  | .Uint64Value _ => .KindUint64
  | .BoolValue _ => .KindBool
  | .Float64Value _ => .KindFloat64
  | .DurationValue _ => .KindDuration
  | .TimeValue _ => .KindTime
  | .GroupValue _ => .KindGroup
  | .LogValuerValue _ => .KindLogValuer
  | .AnyValue _ => .KindAny

/-- The verb %d of package fmt on a non-negative integer: its decimal digits. -/
def fmtDecimal (n : Nat) : String := toString n

/-- The method Value.String: the text form of a value ("default text form"). -/
def Value.String : Value → String
  | .StringValue s => s
  | .Int64Value i => toString i
  | .Uint64Value n => fmtDecimal n
  | .BoolValue b => if b then "true" else "false"
  | .Float64Value t => t
  | .DurationValue t => t
  | .TimeValue t => t
  | .GroupValue t => t
  | .LogValuerValue t => t
  | .AnyValue (.other t) => t
  | .AnyValue (.bytes b) => "[" ++ " ".intercalate (b.map (fun x => fmtDecimal x.toNat)) ++ "]"

/-- The method Value.Any followed by the type assertion `.([]byte)`. -/
def Value.anyBytes : Value → Option (List UInt8)
  | .AnyValue (.bytes b) => some b
  | _ => none

/-- A slog.Attr. -/
structure Attr where
  Key : String
  Value : Value
  deriving DecidableEq, Repr

/-- The wall-clock fields of a time.Time that the layout "15:04:05" prints. -/
structure Time where
  hour : Nat
  minute : Nat
  second : Nat
  deriving DecidableEq, Repr

/-- One frame produced by runtime.CallersFrames. -/
structure Frame where
  File : String
  Line : Nat
  deriving DecidableEq, Repr

/-- A slog.Record.  `attrs` is the sequence that `Record.Attrs` passes to its
callback, in order; `callers` is what runtime.CallersFrames resolves the record's
PC to. -/
structure Record where
  Time : Time
  Level : Level
  Message : String
  attrs : List Attr
  callers : List Frame
  deriving DecidableEq, Repr

/-! ## The handler interface -/

/-- The four methods of slog.Handler for handler values of type `H` acting on a
world `σ`. -/
structure Handler (σ : Type) (H : Type) where
  Enabled : H → Level → Bool
  Handle : H → Record → σ → Option Error × σ
  WithAttrs : H → List Attr → H
  WithGroup : H → String → H

/-! ## parallel.go -/

structure parallelHandler (H : Type) where
  handlers : List H

def NewParallelHandler {H : Type} (handlers : List H) : parallelHandler H :=
  { handlers := handlers }

/-- The loop of parallelHandler.Enabled: the first child that reports true ends it. -/
def parallelHandler.enabledLoop {σ H : Type} (I : Handler σ H) : List H → Level → Bool
  | [], _ => false
  | h :: rest, l => if I.Enabled h l then true else enabledLoop I rest l

def parallelHandler.Enabled {σ H : Type} (I : Handler σ H) (ph : parallelHandler H)
    (l : Level) : Bool :=
  parallelHandler.enabledLoop I ph.handlers l

/-- The loop of parallelHandler.Handle: a child that is not enabled for the record's
level is skipped (`continue`); a non-nil error of a child is returned at once. -/
def parallelHandler.handleLoop {σ H : Type} (I : Handler σ H) :
    List H → Record → σ → Option Error × σ
  | [], _, s => (none, s)
  | h :: rest, r, s =>
    if !I.Enabled h r.Level then handleLoop I rest r s
    else
      match I.Handle h r s with
      | (some err, s') => (some err, s')
      | (none, s') => handleLoop I rest r s'

def parallelHandler.Handle {σ H : Type} (I : Handler σ H) (ph : parallelHandler H)
    (r : Record) (s : σ) : Option Error × σ :=
  parallelHandler.handleLoop I ph.handlers r s

/-- The memory that WithAttrs and WithGroup of the parallel handler work on: the
backing array of the receiver's `handlers` slice and the backing array allocated by
`make([]slog.Handler, len(ph.handlers))`, whose slots start out nil. -/
structure DeriveFrame (H : Type) where
  handlers : List H
  newHandlers : List (Option H)

/-- The loop `for i, h := range ph.handlers` with body `newHandlers[i] = f h`, run
for the `n` remaining iterations starting at index `i`. -/
def parallelHandler.deriveLoop {H : Type} (f : H → H) : Nat → Nat → DeriveFrame H → DeriveFrame H
  | 0, _, fr => fr
  | n + 1, i, fr =>
    match fr.handlers[i]? with
    | none => fr
    | some h => deriveLoop f n (i + 1) { fr with newHandlers := fr.newHandlers.set i (some (f h)) }

/-- The memory after the loop of WithAttrs / WithGroup, `f` being the derivation
applied to each child. -/
def parallelHandler.deriveFrame {H : Type} (f : H → H) (ph : parallelHandler H) : DeriveFrame H :=
  parallelHandler.deriveLoop f ph.handlers.length 0
    { handlers := ph.handlers, newHandlers := List.replicate ph.handlers.length none }

/-- The handler returned after the loop: `NewParallelHandler(newHandlers...)`.  The
children are the non-nil slots of `newHandlers`. -/
def parallelHandler.derive {H : Type} (f : H → H) (ph : parallelHandler H) : parallelHandler H :=
  NewParallelHandler (parallelHandler.deriveFrame f ph).newHandlers.reduceOption

def parallelHandler.WithAttrs {σ H : Type} (I : Handler σ H) (ph : parallelHandler H)
    (a : List Attr) : parallelHandler H :=
  parallelHandler.derive (fun h => I.WithAttrs h a) ph

def parallelHandler.WithGroup {σ H : Type} (I : Handler σ H) (ph : parallelHandler H)
    (g : String) : parallelHandler H :=
  parallelHandler.derive (fun h => I.WithGroup h g) ph

/-- The parallel handler is itself a slog.Handler, so it can be a child again. -/
def parallelHandler.ops {σ H : Type} (I : Handler σ H) : Handler σ (parallelHandler H) where
  Enabled := parallelHandler.Enabled I
  Handle := parallelHandler.Handle I
  WithAttrs := parallelHandler.WithAttrs I
  WithGroup := parallelHandler.WithGroup I

/-! ## Observing calls: spy children -/

/-- One observed call of a child's Handle: which child (its position in the list),
the record it was given, and what it returned. -/
structure Call where
  child : Nat
  record : Record
  result : Option Error
  deriving DecidableEq, Repr

/-- A child wrapped so that each call of its Handle is entered in a log. -/
structure Spy (H : Type) where
  index : Nat
  inner : H

/-- A spy behaves as the wrapped child and logs each Handle call. -/
def Spy.ops {σ H : Type} (I : Handler σ H) : Handler (σ × List Call) (Spy H) where
  Enabled sp l := I.Enabled sp.inner l
  Handle sp r s :=
    ((I.Handle sp.inner r s.1).1,
      ((I.Handle sp.inner r s.1).2, s.2 ++ [{ child := sp.index, record := r, result := (I.Handle sp.inner r s.1).1 }]))
  WithAttrs sp a := { sp with inner := I.WithAttrs sp.inner a }
  WithGroup sp g := { sp with inner := I.WithGroup sp.inner g }

/-- The children `hs`, each wrapped in a spy carrying its position, counted from `i`. -/
def spiesFrom {H : Type} : Nat → List H → List (Spy H)
  | _, [] => []
  | i, h :: rest => { index := i, inner := h } :: spiesFrom (i + 1) rest

/-- The log of Handle calls that parallelHandler.Handle makes on its children for
record `r` in world `s`, in the order they happen. -/
def parallelHandler.calls {σ H : Type} (I : Handler σ H) (ph : parallelHandler H)
    (r : Record) (s : σ) : List Call :=
  (parallelHandler.Handle (Spy.ops I) (NewParallelHandler (spiesFrom 0 ph.handlers)) r (s, [])).2.2

/-- The log of Handle calls made by the loop of parallelHandler.Handle on the children
`hs`, whose positions are counted from `i`. -/
def callsFrom {σ H : Type} (I : Handler σ H) (i : Nat) (hs : List H) (r : Record) (s : σ) :
    List Call :=
  (parallelHandler.handleLoop (Spy.ops I) (spiesFrom i hs) r (s, [])).2.2

/-- The children enabled for level `l`, each with its position (counted from `i`), in
list order. -/
def enabledChildren {σ H : Type} (I : Handler σ H) (l : Level) (i : Nat) (hs : List H) :
    List (Nat × H) :=
  (hs.enumFrom i).filter (fun p => I.Enabled p.2 l)

/-! ## pretty.go -/

/-- A Go `map[string]string`: a finite map from keys to values. -/
abbrev GoMap := AList (fun _ : String => String)

/-- The entries of a map as key/value pairs. -/
def GoMap.pairs (m : GoMap) : List (String × String) :=
  m.entries.map (fun e => (e.1, e.2))

/-- The order in which `range` visits the entries of a map: the Go runtime picks it,
and every entry is visited once. -/
structure RangeOrder where
  visit : GoMap → List (String × String)
  perm : ∀ m, (visit m).Perm (GoMap.pairs m)

/-- The iteration order that visits the entries as they are stored. -/
def RangeOrder.stored : RangeOrder where
  visit := GoMap.pairs
  perm := fun _ => List.Perm.refl _

/-- The iteration order that visits the entries in the reverse order. -/
def RangeOrder.reversed : RangeOrder where
  visit := fun m => (GoMap.pairs m).reverse
  perm := fun m => List.reverse_perm (GoMap.pairs m)

/-- The part of memory the pretty handlers share: the maps allocated so far (a map
value is the address of one of them, or nil) and the number of mutexes allocated. -/
structure Heap where
  maps : List GoMap
  mutexes : Nat

/-- The map a map value refers to; the nil map has no entries. -/
def Heap.mapAt (hp : Heap) : Option Nat → GoMap
  | none => ∅
  | some ref => hp.maps.getD ref ∅

/-- The statement `m[k] = v` on the map at address `ref`. -/
def Heap.store (hp : Heap) (ref : Nat) (k v : String) : Heap :=
  { hp with maps := hp.maps.set ref ((hp.maps.getD ref ∅).insert k v) }

/-- The fields of slog.HandlerOptions.  A Leveler is given by the level it reports
(nil when absent); `ReplaceAttr` names the function value, which pretty.go never calls. -/
structure HandlerOptions where
  AddSource : Bool
  Level : Option Level
  ReplaceAttr : Option String
  deriving DecidableEq, Repr

/-- The lookup `levelToColor[l]` with its comma-ok result. -/
def levelToColor (l : Level) : Option String :=
  if l = LevelDebug then some "\x1b[36m"
  else if l = LevelInfo then some "\x1b[32m"
  else if l = LevelWarn then some "\x1b[33m"
  else if l = LevelError then some "\x1b[31m"
  else none

/-- The struct prettyHandler: `mutex` (the field `mut`) and `w` are the identities of
the shared mutex and writer, `fixedAttrs` is a map value (nil or the address of a map
in the heap). -/
structure prettyHandler where
  mutex : Nat
  fixedAttrs : Option Nat
  groupPrefix : String
  opts : HandlerOptions
  w : Nat
  deriving DecidableEq, Repr

def NewPrettyHandler (w : Nat) (opts : Option HandlerOptions) (hp : Heap) : prettyHandler × Heap :=
  let o : HandlerOptions :=
    match opts with
    | none => { AddSource := false, Level := none, ReplaceAttr := none }
    | some given => given
  let o : HandlerOptions :=
    if o.Level = none then { o with Level := some LevelInfo } else o
  ({ mutex := hp.mutexes, fixedAttrs := none, groupPrefix := "", opts := o, w := w },
    { hp with mutexes := hp.mutexes + 1 })

/-- The method Enabled of the pretty handler: `ph.opts.Level.Level() <= l`.  Calling
`Level()` on a nil Leveler panics: `none`. -/
def prettyHandler.Enabled (ph : prettyHandler) (l : Level) : Option Bool :=
  match ph.opts.Level with
  | none => none
  | some m => some (decide (m ≤ l))

def prettyLogValue (v : Value) : String :=
  match v.Kind with
  | .KindString => "\"" ++ v.String ++ "\""
  | .KindAny =>
    match v.anyBytes with
    | some b => "bytes(" ++ fmtDecimal b.length ++ ")"
    | none => v.String
  | _ => v.String

def prettyLogAttr (key : String) (val : Value) : String :=
  "    \x1b[30m" ++ key ++ ": " ++ prettyLogValue val ++ "\x1b[0m\n"

/-- Two decimal digits, as the layout elements 15, 04 and 05 print them. -/
def pad2 (n : Nat) : String :=
  if n < 10 then "0" ++ fmtDecimal n else fmtDecimal n

/-- The call `r.Time.Format("15:04:05")`. -/
def Time.Format (t : Time) : String :=
  pad2 t.hour ++ ":" ++ pad2 t.minute ++ ":" ++ pad2 t.second

/-- The verb %+d of package fmt. -/
def fmtSigned (i : Int) : String :=
  if 0 ≤ i then "+" ++ fmtDecimal i.toNat else toString i

/-- The closure `str` in Level.String of package slog. -/
def levelStr (base : String) (val : Int) : String :=
  if val = 0 then base else base ++ fmtSigned val

/-- The method Level.String of package slog: the name of the nearest named level at
or below, with the signed offset when there is one. -/
def Level.String (l : Level) : String :=
  if l < LevelInfo then levelStr "DEBUG" (l - LevelDebug)
  else if l < LevelWarn then levelStr "INFO" (l - LevelInfo)
  else if l < LevelError then levelStr "WARN" (l - LevelWarn)
  else levelStr "ERROR" (l - LevelError)

/-- The first write of Handle: color, time, level name, message, reset. -/
def prettyHandler.header (r : Record) : String :=
  (match levelToColor r.Level with
    | some levelColor => levelColor
    | none => "\x1b[0m")
  ++ Time.Format r.Time ++ " [" ++ Level.String r.Level ++ "] " ++ r.Message ++ "\x1b[0m"

def sourceLine (frame : Frame) : String :=
  " \x1b[30mat " ++ frame.File ++ ":" ++ fmtDecimal frame.Line ++ "\x1b[0m\n"

/-- The loop over `frames.Next()`: one write per frame; the body runs before `more` is
tested, so with no frame to report the zero Frame is written once. -/
def sourceLoop : List Frame → List String
  | [] => [sourceLine { File := "", Line := 0 }]
  | [frame] => [sourceLine frame]
  | frame :: rest => sourceLine frame :: sourceLoop rest

/-- The callback given to `r.Attrs`, run over the record's attributes: each one adds
its qualified key to `explicitKeys` and writes its line. -/
def prettyHandler.attrsLoop (groupPrefix : String) :
    List Attr → List String × List String → List String × List String
  | [], st => st
  | a :: rest, (explicitKeys, out) =>
    attrsLoop groupPrefix rest
      ((groupPrefix ++ a.Key) :: explicitKeys,
        out ++ [prettyLogAttr (groupPrefix ++ a.Key) a.Value])

/-- The loop `for k, v := range ph.fixedAttrs` of Handle over the visited entries: an
entry whose key is in `explicitKeys` is not written. -/
def prettyHandler.fixedLoop (explicitKeys : List String) :
    List (String × String) → List String → List String
  | [], out => out
  | (k, v) :: rest, out =>
    if k ∈ explicitKeys then fixedLoop explicitKeys rest out
    else fixedLoop explicitKeys rest (out ++ [v])

/-- The body of the goroutine started by Handle: the writes made on `ph.w`, in order,
while the mutex is held. -/
def prettyHandler.render (ρ : RangeOrder) (hp : Heap) (ph : prettyHandler) (r : Record) :
    List String :=
  let out := [prettyHandler.header r]
  let out := if ph.opts.AddSource then out ++ sourceLoop r.callers else out ++ ["\n"]
  let st := prettyHandler.attrsLoop ph.groupPrefix r.attrs ([], out)
  prettyHandler.fixedLoop st.1 (ρ.visit (hp.mapAt ph.fixedAttrs)) st.2

/-- A started goroutine of Handle: the closure holds the handler and the record. -/
structure Goroutine where
  handler : prettyHandler
  record : Record
  deriving DecidableEq, Repr

/-- The method Handle of the pretty handler: starts the goroutine and returns nil. -/
def prettyHandler.Handle (ph : prettyHandler) (r : Record) : Option Error × Goroutine :=
  (none, { handler := ph, record := r })

/-- The first loop of WithAttrs, `newAttrs[k] = v` for the visited entries. -/
def prettyHandler.copyLoop (newAttrs : Nat) : List (String × String) → Heap → Heap
  | [], hp => hp
  | (k, v) :: rest, hp => copyLoop newAttrs rest (hp.store newAttrs k v)

/-- The second loop of WithAttrs, over the attributes given. -/
def prettyHandler.addLoop (groupPrefix : String) (newAttrs : Nat) : List Attr → Heap → Heap
  | [], hp => hp
  | a :: rest, hp =>
    addLoop groupPrefix newAttrs rest
      (hp.store newAttrs (groupPrefix ++ a.Key) (prettyLogAttr (groupPrefix ++ a.Key) a.Value))

/-- The method WithAttrs of the pretty handler: `make` allocates a map at a fresh
address, the two loops fill it, and the new handler refers to it. -/
def prettyHandler.WithAttrs (ρ : RangeOrder) (ph : prettyHandler) (a : List Attr) (hp : Heap) :
    prettyHandler × Heap :=
  let newAttrs := hp.maps.length
  let hp := { hp with maps := hp.maps ++ [∅] }
  let hp := prettyHandler.copyLoop newAttrs (ρ.visit (hp.mapAt ph.fixedAttrs)) hp
  let hp := prettyHandler.addLoop ph.groupPrefix newAttrs a hp
  ({ mutex := ph.mutex, fixedAttrs := some newAttrs, groupPrefix := ph.groupPrefix,
     opts := ph.opts, w := ph.w }, hp)

/-- The method WithGroup of the pretty handler: the new handler has the same map value
(the same address) and the extended group path; memory is not touched. -/
def prettyHandler.WithGroup (ph : prettyHandler) (g : String) (hp : Heap) : prettyHandler × Heap :=
  ({ mutex := ph.mutex, fixedAttrs := ph.fixedAttrs, groupPrefix := ph.groupPrefix ++ g ++ ".",
     opts := ph.opts, w := ph.w }, hp)

/-- The map `m` after the assignments `m[k] = v` for the pairs of `es`, in order. -/
def GoMap.insertAll (m : GoMap) (es : List (String × String)) : GoMap :=
  es.foldl (fun acc e => acc.insert e.1 e.2) m

/-- The value given to key `q` by the last pair of `es` that has key `q`. -/
def lastValue (q : String) : List (String × String) → Option String
  | [] => none
  | e :: es =>
    match lastValue q es with
    | some v => some v
    | none => if e.1 = q then some e.2 else none

/-- The pairs that the second loop of WithAttrs stores for the attributes `a`: the
qualified key and the rendered line of each. -/
def qualifiedEntries (groupPrefix : String) (a : List Attr) : List (String × String) :=
  a.map (fun x => (groupPrefix ++ x.Key, prettyLogAttr (groupPrefix ++ x.Key) x.Value))

/-- The writes of Handle before the attribute lines: the header, then the capture
site lines or the newline. -/
def prettyHandler.preamble (ph : prettyHandler) (r : Record) : List String :=
  prettyHandler.header r :: (if ph.opts.AddSource then sourceLoop r.callers else ["\n"])

/-- The qualified keys of the record's explicit attributes. -/
def prettyHandler.explicitKeys (ph : prettyHandler) (r : Record) : List String :=
  r.attrs.map (fun a => ph.groupPrefix ++ a.Key)

/-- The rendered lines of the record's explicit attributes, in the record's order. -/
def prettyHandler.explicitLines (ph : prettyHandler) (r : Record) : List String :=
  r.attrs.map (fun a => prettyLogAttr (ph.groupPrefix ++ a.Key) a.Value)

/-- The fixed entries, in the order visited, whose key is not the qualified key of an
explicit attribute of the record. -/
def prettyHandler.fixedWritten (ρ : RangeOrder) (hp : Heap) (ph : prettyHandler) (r : Record) :
    List (String × String) :=
  (ρ.visit (hp.mapAt ph.fixedAttrs)).filter (fun e => decide (e.1 ∉ ph.explicitKeys r))

/-- The handler's map value is nil or the address of an allocated map. -/
def prettyHandler.ValidIn (ph : prettyHandler) (hp : Heap) : Prop :=
  ∀ ref, ph.fixedAttrs = some ref → ref < hp.maps.length

instance (ph : prettyHandler) (hp : Heap) : Decidable (ph.ValidIn hp) :=
  match h : ph.fixedAttrs with
  | none => isTrue (fun ref hr => by rw [h] at hr; cases hr)
  | some a =>
    if hlt : a < hp.maps.length then
      isTrue (fun ref hr => by rw [h] at hr; cases hr; exact hlt)
    else isFalse (fun hv => hlt (hv a h))

/-- Memory before any map is allocated. -/
def Heap.empty : Heap := { maps := [], mutexes := 0 }

/-- The map that WithAttrs builds for the new handler: the visited entries of the
receiver's map copied into an empty map, then the pairs of the attributes stored. -/
def newFixedAttrs (ρ : RangeOrder) (ph : prettyHandler) (a : List Attr) (hp : Heap) : GoMap :=
  GoMap.insertAll (GoMap.insertAll ∅ (ρ.visit (hp.mapAt ph.fixedAttrs)))
    (qualifiedEntries ph.groupPrefix a)

/-- The handler `h.WithGroup(g).WithAttrs([{k: v}])` and the memory after deriving it. -/
def groupThenAttr (ρ : RangeOrder) (h : prettyHandler) (g k : String) (v : Value) (hp : Heap) :
    prettyHandler × Heap :=
  prettyHandler.WithAttrs ρ (h.WithGroup g hp).1 [{ Key := k, Value := v }] (h.WithGroup g hp).2

/-- Two children derived from the same handler, `h.WithAttrs(a₁)` and then
`h.WithAttrs(a₂)`, and the memory after both derivations. -/
def twoChildren (ρ₁ ρ₂ : RangeOrder) (h : prettyHandler) (a₁ a₂ : List Attr) (hp : Heap) :
    prettyHandler × prettyHandler × Heap :=
  ((h.WithAttrs ρ₁ a₁ hp).1,
    (h.WithAttrs ρ₂ a₂ (h.WithAttrs ρ₁ a₁ hp).2).1,
    (h.WithAttrs ρ₂ a₂ (h.WithAttrs ρ₁ a₁ hp).2).2)

/-- A root handler with the fixed attribute user = "bob", built in empty memory. -/
def sampleUserHandler : prettyHandler × Heap :=
  prettyHandler.WithAttrs RangeOrder.stored (NewPrettyHandler 1 none Heap.empty).1
    [{ Key := "user", Value := Value.StringValue "bob" }] (NewPrettyHandler 1 none Heap.empty).2

/-! ## async.go -/

structure asyncHandler (H : Type) where
  handler : H

def NewAsyncHandler {H : Type} (handler : H) : asyncHandler H :=
  { handler := handler }

def asyncHandler.Enabled {σ H : Type} (I : Handler σ H) (ah : asyncHandler H) (l : Level) : Bool :=
  I.Enabled ah.handler l

/-- A goroutine started by the statement `go ah.handler.Handle(ctx, r)`: the call it
will make.  Nothing receives what the call returns. -/
structure Started (H : Type) where
  handler : H
  record : Record

/-- The method Handle of the async handler.  The world of the async handler is the
world of the inner handler together with the goroutines started and not yet run: the
`go` statement adds one, the inner world is as it was, and nil is returned. -/
def asyncHandler.Handle {σ H : Type} (_I : Handler σ H) (ah : asyncHandler H) (r : Record)
    (s : σ × List (Started H)) : Option Error × (σ × List (Started H)) :=
  (none, (s.1, s.2 ++ [{ handler := ah.handler, record := r }]))

/-- Running a started goroutine: the inner Handle acts on the world and its result is
dropped. -/
def Started.run {σ H : Type} (I : Handler σ H) (g : Started H) (s : σ) : σ :=
  (I.Handle g.handler g.record s).2

def asyncHandler.WithAttrs {σ H : Type} (I : Handler σ H) (ah : asyncHandler H) (a : List Attr) :
    asyncHandler H :=
  NewAsyncHandler (I.WithAttrs ah.handler a)

def asyncHandler.WithGroup {σ H : Type} (I : Handler σ H) (ah : asyncHandler H) (g : String) :
    asyncHandler H :=
  NewAsyncHandler (I.WithGroup ah.handler g)

/-- The async handler is itself a slog.Handler. -/
def asyncHandler.ops {σ H : Type} (I : Handler σ H) :
    Handler (σ × List (Started H)) (asyncHandler H) where
  Enabled := asyncHandler.Enabled I
  Handle := asyncHandler.Handle I
  WithAttrs := asyncHandler.WithAttrs I
  WithGroup := asyncHandler.WithGroup I

/-- One derivation step: a call of WithAttrs or of WithGroup. -/
inductive Derivation where
  | attrs (a : List Attr)
  | group (g : String)

/-- A chain of derivations applied to a handler, first step first. -/
def Handler.derive {σ H : Type} (I : Handler σ H) : H → List Derivation → H
  | h, [] => h
  | h, Derivation.attrs a :: rest => Handler.derive I (I.WithAttrs h a) rest
  | h, Derivation.group g :: rest => Handler.derive I (I.WithGroup h g) rest

/-- The handler `h.WithAttrs([{k₁: v₁}]).WithGroup(g).WithAttrs([{k₂: v₂}])` and the
memory after deriving it: one attribute added before the group is opened, one after. -/
def attrGroupAttr (ρ ρ' : RangeOrder) (h : prettyHandler) (k₁ : String) (v₁ : Value) (g : String)
    (k₂ : String) (v₂ : Value) (hp : Heap) : prettyHandler × Heap :=
  groupThenAttr ρ' (h.WithAttrs ρ [{ Key := k₁, Value := v₁ }] hp).1 g k₂ v₂
    (h.WithAttrs ρ [{ Key := k₁, Value := v₁ }] hp).2

/-- The root handler after `WithAttrs([{"a.b": x}])`, and the memory. -/
def dottedKeyHandler (ρ : RangeOrder) (w : Nat) (opts : Option HandlerOptions) (x : Value)
    (hp : Heap) : prettyHandler × Heap :=
  prettyHandler.WithAttrs ρ (NewPrettyHandler w opts hp).1 [{ Key := "a.b", Value := x }]
    (NewPrettyHandler w opts hp).2

/-- The handler `root.WithAttrs([{"a.b": x}]).WithGroup("a")`, and the memory. -/
def dottedKeyInGroup (ρ : RangeOrder) (w : Nat) (opts : Option HandlerOptions) (x : Value)
    (hp : Heap) : prettyHandler × Heap :=
  (dottedKeyHandler ρ w opts x hp).1.WithGroup "a" (dottedKeyHandler ρ w opts x hp).2

/-- The handler `root.WithAttrs([{"a.b": x}]).WithGroup("a").WithAttrs([{"b": y}])`, and
the memory. -/
def dottedKeyCollision (ρ ρ' : RangeOrder) (w : Nat) (opts : Option HandlerOptions)
    (x y : Value) (hp : Heap) : prettyHandler × Heap :=
  prettyHandler.WithAttrs ρ' (dottedKeyInGroup ρ w opts x hp).1 [{ Key := "b", Value := y }]
    (dottedKeyInGroup ρ w opts x hp).2

/-! ## Goroutines of the pretty handler under a scheduler -/

/-- Where the goroutine started by Handle stands: before `ph.mut.Lock()` has returned,
holding the mutex with some writes still to make, or past the deferred Unlock. -/
inductive Phase where
  | started
  | locked (todo : List String)
  | returned
  deriving DecidableEq, Repr

/-- What the goroutines share: the writes received so far by each writer, and which
mutexes are held. -/
structure Shared where
  sink : Nat → List String
  held : Nat → Bool

/-- One atomic step of the goroutine started by Handle.  Lock succeeds only on a mutex
that is not held (otherwise the goroutine stays where it is); once the mutex is held
the writes of the body are made one per step; the deferred Unlock ends the goroutine. -/
def Goroutine.step (ρ : RangeOrder) (hp : Heap) (g : Goroutine) (sh : Shared) :
    Phase → Shared × Phase
  | Phase.started =>
    if sh.held g.handler.mutex then (sh, Phase.started)
    else ({ sh with held := Function.update sh.held g.handler.mutex true },
          Phase.locked (prettyHandler.render ρ hp g.handler g.record))
  | Phase.locked (wr :: rest) =>
    ({ sh with sink := Function.update sh.sink g.handler.w (sh.sink g.handler.w ++ [wr]) },
      Phase.locked rest)
  | Phase.locked [] =>
    ({ sh with held := Function.update sh.held g.handler.mutex false }, Phase.returned)
  | Phase.returned => (sh, Phase.returned)

/-- Two goroutines and what they share. -/
structure Pair where
  shared : Shared
  first : Phase
  second : Phase

/-- The scheduler lets one of the two goroutines take a step: the second one when
`second` is true, the first one otherwise. -/
def Pair.step (ρ₁ ρ₂ : RangeOrder) (hp : Heap) (g₁ g₂ : Goroutine) (st : Pair) (second : Bool) :
    Pair :=
  if second then
    { shared := (g₂.step ρ₂ hp st.shared st.second).1, first := st.first,
      second := (g₂.step ρ₂ hp st.shared st.second).2 }
  else
    { shared := (g₁.step ρ₁ hp st.shared st.first).1,
      first := (g₁.step ρ₁ hp st.shared st.first).2, second := st.second }

/-- A schedule is the sequence of choices of the scheduler; running it takes the steps
in that order. -/
def Pair.run (ρ₁ ρ₂ : RangeOrder) (hp : Heap) (g₁ g₂ : Goroutine) (schedule : List Bool)
    (st : Pair) : Pair :=
  schedule.foldl (Pair.step ρ₁ ρ₂ hp g₁ g₂) st

/-- The state of two goroutines that share the mutex `m` and the writer `w`, seen from
the start, where the writer held `s₀`: `b₁` and `b₂` are the blocks of the two records. -/
def Pair.Inv (m w : Nat) (s₀ b₁ b₂ : List String) (st : Pair) : Prop :=
  match st.first, st.second with
  | Phase.started, Phase.started => st.shared.held m = false ∧ st.shared.sink w = s₀
  | Phase.locked t, Phase.started => st.shared.held m = true ∧ st.shared.sink w ++ t = s₀ ++ b₁
  | Phase.returned, Phase.started => st.shared.held m = false ∧ st.shared.sink w = s₀ ++ b₁
  | Phase.started, Phase.locked t => st.shared.held m = true ∧ st.shared.sink w ++ t = s₀ ++ b₂
  | Phase.started, Phase.returned => st.shared.held m = false ∧ st.shared.sink w = s₀ ++ b₂
  | Phase.returned, Phase.locked t =>
    st.shared.held m = true ∧ st.shared.sink w ++ t = s₀ ++ b₁ ++ b₂
  | Phase.locked t, Phase.returned =>
    st.shared.held m = true ∧ st.shared.sink w ++ t = s₀ ++ b₂ ++ b₁
  | Phase.returned, Phase.returned =>
    st.shared.held m = false
      ∧ (st.shared.sink w = s₀ ++ b₁ ++ b₂ ∨ st.shared.sink w = s₀ ++ b₂ ++ b₁)
  | Phase.locked _, Phase.locked _ => False

/-- Nothing written and no mutex held. -/
def Shared.initial : Shared :=
  { sink := fun _ => [], held := fun _ => false }

/-- The schedule that lets the second and the first goroutine take turns, `n` times. -/
def takingTurns (n : Nat) : List Bool :=
  (List.replicate n [true, false]).flatten

/-- A second root handler on the same writer as the first one: NewPrettyHandler gives
it a mutex of its own. -/
def secondRoot : prettyHandler × Heap :=
  NewPrettyHandler 1 none (NewPrettyHandler 1 none Heap.empty).2

/-! ## A concrete child, for examples -/

/-- A test child: enabled from a minimum level on, records the message of each
record it handles in the world (a list of lines), and fails with a fixed error
when one is given. -/
structure Stub where
  name : String
  minLevel : Level
  fails : Option Error
  derived : List String
  deriving DecidableEq, Repr

def Stub.ops : Handler (List String) Stub where
  Enabled h l := decide (h.minLevel ≤ l)
  Handle h r s := (h.fails, s ++ [h.name ++ ":" ++ r.Message])
  WithAttrs h a := { h with derived := h.derived ++ a.map (fun x => x.Key) }
  WithGroup h g := { h with derived := h.derived ++ [g ++ "."] }

/-- A child enabled from Info on that succeeds. -/
def stubOk (name : String) : Stub :=
  { name := name, minLevel := LevelInfo, fails := none, derived := [] }

/-- A child enabled from Info on whose Handle fails with the given error. -/
def stubFailing (name : String) (err : Error) : Stub :=
  { name := name, minLevel := LevelInfo, fails := some err, derived := [] }

/-- A child enabled only from Error on; its Handle would fail when a failure is given. -/
def stubErrorOnly (name : String) (fails : Option Error) : Stub :=
  { name := name, minLevel := LevelError, fails := fails, derived := [] }

/-- A record with no attributes. -/
def sampleRecord (l : Level) (msg : String) : Record :=
  { Time := { hour := 9, minute := 5, second := 0 }, Level := l, Message := msg,
    attrs := [], callers := [] }

/-! ## Theorems: parallel handler -/

theorem enabledLoop_eq_any {σ H : Type} (I : Handler σ H) (hs : List H) (l : Level) :
    parallelHandler.enabledLoop I hs l = hs.any (fun h => I.Enabled h l) := by
  induction hs with
  | nil => rfl
  | cons h rest ih =>
    simp only [parallelHandler.enabledLoop, List.any_cons, ih]
    cases I.Enabled h l <;> simp

/-- C1: the handler built by NewParallelHandler is enabled for a level exactly when
the disjunction of its children's Enabled at that level holds; it is not enabled when
there are no children, and it is not enabled only when every child reports false. -/
theorem parallel_enabled_is_or {σ H : Type} (I : Handler σ H) (hs : List H) (l : Level) :
    parallelHandler.Enabled I (NewParallelHandler hs) l = hs.any (fun h => I.Enabled h l)
    ∧ parallelHandler.Enabled I (NewParallelHandler ([] : List H)) l = false
    ∧ (parallelHandler.Enabled I (NewParallelHandler hs) l = true ↔ ∃ h ∈ hs, I.Enabled h l = true)
    ∧ (parallelHandler.Enabled I (NewParallelHandler hs) l = false ↔ ∀ h ∈ hs, I.Enabled h l = false) := by
  have e := enabledLoop_eq_any I hs l
  refine ⟨e, rfl, ?_, ?_⟩
  · unfold parallelHandler.Enabled NewParallelHandler
    simp only [e, List.any_eq_true]
  · unfold parallelHandler.Enabled NewParallelHandler
    simp only [e, List.any_eq_false]
    constructor
    · intro h x hx
      simpa using h x hx
    · intro h x hx
      simp [h x hx]

/-! ### The loop of Handle, one iteration at a time -/

theorem handleLoop_cons_disabled {σ H : Type} (I : Handler σ H) (x : H) (rest : List H)
    (r : Record) (s : σ) (hx : I.Enabled x r.Level = false) :
    parallelHandler.handleLoop I (x :: rest) r s = parallelHandler.handleLoop I rest r s := by
  simp [parallelHandler.handleLoop, hx]

theorem handleLoop_cons_error {σ H : Type} (I : Handler σ H) (x : H) (rest : List H)
    (r : Record) (s : σ) (e : Error) (hx : I.Enabled x r.Level = true)
    (he : (I.Handle x r s).1 = some e) :
    parallelHandler.handleLoop I (x :: rest) r s = (some e, (I.Handle x r s).2) := by
  rcases hh : I.Handle x r s with ⟨res, s'⟩
  rw [hh] at he
  simp only at he
  subst he
  simp [parallelHandler.handleLoop, hx, hh]

theorem handleLoop_cons_ok {σ H : Type} (I : Handler σ H) (x : H) (rest : List H)
    (r : Record) (s : σ) (hx : I.Enabled x r.Level = true)
    (he : (I.Handle x r s).1 = none) :
    parallelHandler.handleLoop I (x :: rest) r s
      = parallelHandler.handleLoop I rest r (I.Handle x r s).2 := by
  rcases hh : I.Handle x r s with ⟨res, s'⟩
  rw [hh] at he
  simp only at he
  subst he
  simp [parallelHandler.handleLoop, hx, hh]

theorem spy_Handle_snd {σ H : Type} (I : Handler σ H) (i : Nat) (x : H) (r : Record) (s : σ)
    (log : List Call) :
    ((Spy.ops I).Handle ⟨i, x⟩ r (s, log)).2
      = ((I.Handle x r s).2, log ++ [{ child := i, record := r, result := (I.Handle x r s).1 }]) :=
  rfl

/-- Running the loop on spies: result and world are those of the plain children, and
the log grows by the calls made. -/
theorem spy_handleLoop {σ H : Type} (I : Handler σ H) (hs : List H) (i : Nat) (r : Record)
    (s : σ) (log : List Call) :
    parallelHandler.handleLoop (Spy.ops I) (spiesFrom i hs) r (s, log)
      = ((parallelHandler.handleLoop I hs r s).1,
          ((parallelHandler.handleLoop I hs r s).2, log ++ callsFrom I i hs r s)) := by
  induction hs generalizing i s log with
  | nil => simp [spiesFrom, callsFrom, parallelHandler.handleLoop]
  | cons x rest ih =>
    cases hx : I.Enabled x r.Level with
    | false =>
      have hsp : (Spy.ops I).Enabled ⟨i, x⟩ r.Level = false := hx
      have e1 := handleLoop_cons_disabled (Spy.ops I) ⟨i, x⟩ (spiesFrom (i + 1) rest) r (s, log) hsp
      have e2 := handleLoop_cons_disabled (Spy.ops I) ⟨i, x⟩ (spiesFrom (i + 1) rest) r (s, []) hsp
      have e3 := handleLoop_cons_disabled I x rest r s hx
      simp only [spiesFrom, callsFrom] at *
      rw [e1, e2, e3, ih]
    | true =>
      have hsp : (Spy.ops I).Enabled ⟨i, x⟩ r.Level = true := hx
      cases hres : (I.Handle x r s).1 with
      | some e =>
        have e3 := handleLoop_cons_error I x rest r s e hx hres
        have e1 := handleLoop_cons_error (Spy.ops I) ⟨i, x⟩ (spiesFrom (i + 1) rest) r (s, log) e
          hsp hres
        have e2 := handleLoop_cons_error (Spy.ops I) ⟨i, x⟩ (spiesFrom (i + 1) rest) r (s, []) e
          hsp hres
        simp only [spiesFrom, callsFrom] at *
        rw [e1, e2, e3]
        simp [Spy.ops]
      | none =>
        have e3 := handleLoop_cons_ok I x rest r s hx hres
        have e1 := handleLoop_cons_ok (Spy.ops I) ⟨i, x⟩ (spiesFrom (i + 1) rest) r (s, log)
          hsp hres
        have e2 := handleLoop_cons_ok (Spy.ops I) ⟨i, x⟩ (spiesFrom (i + 1) rest) r (s, [])
          hsp hres
        simp only [spiesFrom, callsFrom] at *
        rw [e1, e2, e3, spy_Handle_snd, spy_Handle_snd, ih, ih (i + 1) _ ([] ++ _)]
        simp [callsFrom, hres]

theorem callsFrom_nil {σ H : Type} (I : Handler σ H) (i : Nat) (r : Record) (s : σ) :
    callsFrom I i [] r s = [] := rfl

theorem callsFrom_cons_disabled {σ H : Type} (I : Handler σ H) (i : Nat) (x : H)
    (rest : List H) (r : Record) (s : σ) (hx : I.Enabled x r.Level = false) :
    callsFrom I i (x :: rest) r s = callsFrom I (i + 1) rest r s := by
  have hsp : (Spy.ops I).Enabled ⟨i, x⟩ r.Level = false := hx
  simp only [callsFrom, spiesFrom]
  rw [handleLoop_cons_disabled (Spy.ops I) ⟨i, x⟩ _ r (s, []) hsp]

theorem callsFrom_cons_error {σ H : Type} (I : Handler σ H) (i : Nat) (x : H)
    (rest : List H) (r : Record) (s : σ) (e : Error) (hx : I.Enabled x r.Level = true)
    (he : (I.Handle x r s).1 = some e) :
    callsFrom I i (x :: rest) r s = [{ child := i, record := r, result := some e }] := by
  have hsp : (Spy.ops I).Enabled ⟨i, x⟩ r.Level = true := hx
  simp only [callsFrom, spiesFrom]
  rw [handleLoop_cons_error (Spy.ops I) ⟨i, x⟩ _ r (s, []) e hsp he]
  simp [Spy.ops, he]

theorem callsFrom_cons_ok {σ H : Type} (I : Handler σ H) (i : Nat) (x : H)
    (rest : List H) (r : Record) (s : σ) (hx : I.Enabled x r.Level = true)
    (he : (I.Handle x r s).1 = none) :
    callsFrom I i (x :: rest) r s
      = { child := i, record := r, result := none } :: callsFrom I (i + 1) rest r (I.Handle x r s).2 := by
  have hsp : (Spy.ops I).Enabled ⟨i, x⟩ r.Level = true := hx
  simp only [callsFrom, spiesFrom]
  rw [handleLoop_cons_ok (Spy.ops I) ⟨i, x⟩ _ r (s, []) hsp he, spy_Handle_snd, spy_handleLoop]
  simp [callsFrom, he]

theorem calls_eq_callsFrom {σ H : Type} (I : Handler σ H) (hs : List H) (r : Record) (s : σ) :
    parallelHandler.calls I (NewParallelHandler hs) r s = callsFrom I 0 hs r s := rfl

/-- Every logged call was made with the record being handled, on a child of the list
that is enabled for the record's level. -/
theorem callsFrom_mem {σ H : Type} (I : Handler σ H) (hs : List H) (i : Nat) (r : Record)
    (s : σ) (c : Call) (hc : c ∈ callsFrom I i hs r s) :
    c.record = r ∧ ∃ h, (c.child, h) ∈ hs.enumFrom i ∧ I.Enabled h r.Level = true := by
  induction hs generalizing i s with
  | nil => simp [callsFrom_nil] at hc
  | cons x rest ih =>
    cases hx : I.Enabled x r.Level with
    | false =>
      rw [callsFrom_cons_disabled I i x rest r s hx] at hc
      obtain ⟨h1, h, h2, h3⟩ := ih (i + 1) s hc
      exact ⟨h1, h, by simp [h2], h3⟩
    | true =>
      cases hres : (I.Handle x r s).1 with
      | some e =>
        rw [callsFrom_cons_error I i x rest r s e hx hres] at hc
        simp only [List.mem_singleton] at hc
        subst hc
        exact ⟨rfl, x, by simp, hx⟩
      | none =>
        rw [callsFrom_cons_ok I i x rest r s hx hres] at hc
        rcases List.mem_cons.1 hc with hc | hc
        · subst hc
          exact ⟨rfl, x, by simp, hx⟩
        · obtain ⟨h1, h, h2, h3⟩ := ih (i + 1) _ hc
          exact ⟨h1, h, by simp [h2], h3⟩

/-- When the loop runs through a prefix of the children without an error, it continues
with the remaining children from the world the prefix left. -/
theorem handleLoop_append {σ H : Type} (I : Handler σ H) (pre rest : List H) (i : Nat)
    (r : Record) (s : σ) (hpre : (parallelHandler.handleLoop I pre r s).1 = none) :
    parallelHandler.handleLoop I (pre ++ rest) r s
        = parallelHandler.handleLoop I rest r (parallelHandler.handleLoop I pre r s).2
    ∧ callsFrom I i (pre ++ rest) r s
        = callsFrom I i pre r s
          ++ callsFrom I (i + pre.length) rest r (parallelHandler.handleLoop I pre r s).2 := by
  induction pre generalizing i s with
  | nil => simp [parallelHandler.handleLoop, callsFrom_nil]
  | cons x pre ih =>
    cases hx : I.Enabled x r.Level with
    | false =>
      rw [handleLoop_cons_disabled I x pre r s hx] at hpre ⊢
      rw [List.cons_append, handleLoop_cons_disabled I x (pre ++ rest) r s hx,
        callsFrom_cons_disabled I i x (pre ++ rest) r s hx,
        callsFrom_cons_disabled I i x pre r s hx]
      have h := ih (i + 1) s hpre
      refine ⟨h.1, ?_⟩
      rw [h.2, List.length_cons]
      congr 2
      omega
    | true =>
      cases hres : (I.Handle x r s).1 with
      | some e =>
        rw [handleLoop_cons_error I x pre r s e hx hres] at hpre
        simp at hpre
      | none =>
        rw [handleLoop_cons_ok I x pre r s hx hres] at hpre ⊢
        rw [List.cons_append, handleLoop_cons_ok I x (pre ++ rest) r s hx hres,
          callsFrom_cons_ok I i x (pre ++ rest) r s hx hres,
          callsFrom_cons_ok I i x pre r s hx hres]
        have h := ih (i + 1) _ hpre
        refine ⟨h.1, ?_⟩
        rw [h.2, List.length_cons, List.cons_append]
        congr 3
        omega

/-- The loop returns nil exactly when the log shows one successful call for each
enabled child, in list order. -/
theorem handleLoop_none_iff {σ H : Type} (I : Handler σ H) (hs : List H) (i : Nat)
    (r : Record) (s : σ) :
    (parallelHandler.handleLoop I hs r s).1 = none
      ↔ callsFrom I i hs r s
          = (enabledChildren I r.Level i hs).map
              (fun p => { child := p.1, record := r, result := none }) := by
  induction hs generalizing i s with
  | nil => simp [parallelHandler.handleLoop, callsFrom_nil, enabledChildren]
  | cons x rest ih =>
    cases hx : I.Enabled x r.Level with
    | false =>
      rw [handleLoop_cons_disabled I x rest r s hx, callsFrom_cons_disabled I i x rest r s hx,
        ih (i + 1) s]
      simp [enabledChildren, hx]
    | true =>
      cases hres : (I.Handle x r s).1 with
      | some e =>
        rw [handleLoop_cons_error I x rest r s e hx hres, callsFrom_cons_error I i x rest r s e hx hres]
        simp [enabledChildren, hx]
      | none =>
        rw [handleLoop_cons_ok I x rest r s hx hres, callsFrom_cons_ok I i x rest r s hx hres,
          ih (i + 1) _]
        simp [enabledChildren, hx]

/-- If every enabled child returns nil in whatever world it is called, the loop returns nil. -/
theorem handleLoop_none_of_all {σ H : Type} (I : Handler σ H) (hs : List H) (r : Record) (s : σ)
    (hall : ∀ h ∈ hs, I.Enabled h r.Level = true → ∀ t, (I.Handle h r t).1 = none) :
    (parallelHandler.handleLoop I hs r s).1 = none := by
  induction hs generalizing s with
  | nil => rfl
  | cons x rest ih =>
    have hrest : ∀ h ∈ rest, I.Enabled h r.Level = true → ∀ t, (I.Handle h r t).1 = none :=
      fun h hh => hall h (List.mem_cons_of_mem _ hh)
    cases hx : I.Enabled x r.Level with
    | false =>
      rw [handleLoop_cons_disabled I x rest r s hx]
      exact ih s hrest
    | true =>
      rw [handleLoop_cons_ok I x rest r s hx (hall x (List.mem_cons_self _ _) hx s)]
      exact ih _ hrest

/-- Two lists of children that agree position by position on Enabled for the record's
level, and on Handle wherever enabled, make the loop behave the same. -/
theorem handleLoop_congr {σ H : Type} (I : Handler σ H) (hs hs' : List H) (i : Nat)
    (r : Record) (s : σ)
    (hrel : List.Forall₂ (fun h h' => I.Enabled h r.Level = I.Enabled h' r.Level
      ∧ (I.Enabled h r.Level = true → I.Handle h r = I.Handle h' r)) hs hs') :
    parallelHandler.handleLoop I hs r s = parallelHandler.handleLoop I hs' r s
    ∧ callsFrom I i hs r s = callsFrom I i hs' r s := by
  induction hrel generalizing i s with
  | nil => exact ⟨rfl, rfl⟩
  | @cons x y rest rest' hxy _ ih =>
    cases hx : I.Enabled x r.Level with
    | false =>
      have hy : I.Enabled y r.Level = false := by rw [← hxy.1, hx]
      rw [handleLoop_cons_disabled I x rest r s hx, handleLoop_cons_disabled I y rest' r s hy,
        callsFrom_cons_disabled I i x rest r s hx, callsFrom_cons_disabled I i y rest' r s hy]
      exact ih (i + 1) s
    | true =>
      have hy : I.Enabled y r.Level = true := by rw [← hxy.1, hx]
      have hh : I.Handle x r = I.Handle y r := hxy.2 hx
      cases hres : (I.Handle x r s).1 with
      | some e =>
        have hres' : (I.Handle y r s).1 = some e := by rw [← hh, hres]
        rw [handleLoop_cons_error I x rest r s e hx hres,
          handleLoop_cons_error I y rest' r s e hy hres',
          callsFrom_cons_error I i x rest r s e hx hres,
          callsFrom_cons_error I i y rest' r s e hy hres', hh]
        exact ⟨rfl, rfl⟩
      | none =>
        have hres' : (I.Handle y r s).1 = none := by rw [← hh, hres]
        rw [handleLoop_cons_ok I x rest r s hx hres, handleLoop_cons_ok I y rest' r s hy hres',
          callsFrom_cons_ok I i x rest r s hx hres, callsFrom_cons_ok I i y rest' r s hy hres', hh]
        exact ⟨(ih (i + 1) _).1, by rw [(ih (i + 1) _).2]⟩

theorem handleLoop_none_imp {σ H : Type} (I : Handler σ H) (hs : List H) (r : Record) (s : σ)
    (hres : (parallelHandler.handleLoop I hs r s).1 = none) :
    ∀ h ∈ hs, I.Enabled h r.Level = true → ∃ t, (I.Handle h r t).1 = none := by
  induction hs generalizing s with
  | nil => simp
  | cons x rest ih =>
    intro h hh hen
    cases hx : I.Enabled x r.Level with
    | false =>
      rw [handleLoop_cons_disabled I x rest r s hx] at hres
      rcases List.mem_cons.1 hh with rfl | hh
      · rw [hx] at hen
        cases hen
      · exact ih s hres h hh hen
    | true =>
      cases hr : (I.Handle x r s).1 with
      | some e =>
        rw [handleLoop_cons_error I x rest r s e hx hr] at hres
        cases hres
      | none =>
        rw [handleLoop_cons_ok I x rest r s hx hr] at hres
        rcases List.mem_cons.1 hh with rfl | hh
        · exact ⟨s, hr⟩
        · exact ih _ hres h hh hen

/-- C2: when the children before `A` are handled without an error, and `A` is enabled
for the record's level and its Handle returns the error `e`, then Handle of the parallel
handler returns exactly `e`, the world is the one `A` left, `A` is the last child called,
and no child positioned after `A` is called. -/
theorem parallel_handle_first_error {σ H : Type} (I : Handler σ H) (pre post : List H) (A : H)
    (r : Record) (s : σ) (e : Error)
    (hpre : (parallelHandler.Handle I (NewParallelHandler pre) r s).1 = none)
    (hen : I.Enabled A r.Level = true)
    (hA : (I.Handle A r (parallelHandler.Handle I (NewParallelHandler pre) r s).2).1 = some e) :
    (parallelHandler.Handle I (NewParallelHandler (pre ++ A :: post)) r s).1 = some e
    ∧ (parallelHandler.Handle I (NewParallelHandler (pre ++ A :: post)) r s).2
        = (I.Handle A r (parallelHandler.Handle I (NewParallelHandler pre) r s).2).2
    ∧ parallelHandler.calls I (NewParallelHandler (pre ++ A :: post)) r s
        = parallelHandler.calls I (NewParallelHandler pre) r s
          ++ [{ child := pre.length, record := r, result := some e }]
    ∧ ∀ c ∈ parallelHandler.calls I (NewParallelHandler (pre ++ A :: post)) r s,
        c.child ≤ pre.length := by
  have hpre' : (parallelHandler.handleLoop I pre r s).1 = none := hpre
  have hA' : (I.Handle A r (parallelHandler.handleLoop I pre r s).2).1 = some e := hA
  have happ := handleLoop_append I pre (A :: post) 0 r s hpre'
  have hcalls : callsFrom I 0 (pre ++ A :: post) r s
      = callsFrom I 0 pre r s ++ [{ child := pre.length, record := r, result := some e }] := by
    rw [happ.2, callsFrom_cons_error I _ A post r _ e hen hA', Nat.zero_add]
  have hrun : parallelHandler.handleLoop I (pre ++ A :: post) r s
      = (some e, (I.Handle A r (parallelHandler.handleLoop I pre r s).2).2) := by
    rw [happ.1, handleLoop_cons_error I A post r _ e hen hA']
  refine ⟨?_, ?_, hcalls, ?_⟩
  · show (parallelHandler.handleLoop I (pre ++ A :: post) r s).1 = some e
    rw [hrun]
  · show (parallelHandler.handleLoop I (pre ++ A :: post) r s).2 = _
    rw [hrun]
    rfl
  · intro c hc
    rw [calls_eq_callsFrom, hcalls] at hc
    rcases List.mem_append.1 hc with hc | hc
    · obtain ⟨_, h, hmem, _⟩ := callsFrom_mem I pre 0 r s c hc
      have := List.fst_lt_add_of_mem_enumFrom hmem
      simp only at this
      omega
    · simp only [List.mem_singleton] at hc
      subst hc
      exact Nat.le_refl _

/-- C2 at children [ok, failing, ok] handling an Info record: the error of the second
child is returned and the log shows calls of the first two children only. -/
theorem parallel_handle_first_error_witness :
    (parallelHandler.Handle Stub.ops
        (NewParallelHandler ([stubOk "a"] ++ stubFailing "b" "disk full" :: [stubOk "c"]))
        (sampleRecord LevelInfo "hello") []).1 = some "disk full"
    ∧ (parallelHandler.Handle Stub.ops
        (NewParallelHandler ([stubOk "a"] ++ stubFailing "b" "disk full" :: [stubOk "c"]))
        (sampleRecord LevelInfo "hello") []).2
        = (Stub.ops.Handle (stubFailing "b" "disk full") (sampleRecord LevelInfo "hello")
            (parallelHandler.Handle Stub.ops (NewParallelHandler [stubOk "a"])
              (sampleRecord LevelInfo "hello") []).2).2
    ∧ parallelHandler.calls Stub.ops
        (NewParallelHandler ([stubOk "a"] ++ stubFailing "b" "disk full" :: [stubOk "c"]))
        (sampleRecord LevelInfo "hello") []
        = parallelHandler.calls Stub.ops (NewParallelHandler [stubOk "a"])
            (sampleRecord LevelInfo "hello") []
          ++ [{ child := [stubOk "a"].length, record := sampleRecord LevelInfo "hello",
                result := some "disk full" }]
    ∧ ∀ c ∈ parallelHandler.calls Stub.ops
        (NewParallelHandler ([stubOk "a"] ++ stubFailing "b" "disk full" :: [stubOk "c"]))
        (sampleRecord LevelInfo "hello") [], c.child ≤ [stubOk "a"].length :=
  parallel_handle_first_error Stub.ops [stubOk "a"] [stubOk "c"] (stubFailing "b" "disk full")
    (sampleRecord LevelInfo "hello") [] "disk full" (by decide) (by decide) (by decide)

/-- C3: every call that Handle of the parallel handler makes goes to a child that is
enabled for the record's level, so a disabled child is never called; and replacing the
Handle behaviour of disabled children by any other (children related position by
position: same Enabled at the record's level, same Handle wherever enabled) changes
neither the result, nor the world, nor the log of calls. -/
theorem parallel_handle_skips_disabled {σ H : Type} (I : Handler σ H) (hs hs' : List H)
    (r : Record) (s : σ)
    (hrel : List.Forall₂ (fun h h' => I.Enabled h r.Level = I.Enabled h' r.Level
      ∧ (I.Enabled h r.Level = true → I.Handle h r = I.Handle h' r)) hs hs') :
    (∀ c ∈ parallelHandler.calls I (NewParallelHandler hs) r s,
        ∃ h, hs[c.child]? = some h ∧ I.Enabled h r.Level = true)
    ∧ parallelHandler.Handle I (NewParallelHandler hs) r s
        = parallelHandler.Handle I (NewParallelHandler hs') r s
    ∧ parallelHandler.calls I (NewParallelHandler hs) r s
        = parallelHandler.calls I (NewParallelHandler hs') r s := by
  have h := handleLoop_congr I hs hs' 0 r s hrel
  refine ⟨?_, h.1, h.2⟩
  intro c hc
  obtain ⟨_, x, hmem, hen⟩ := callsFrom_mem I hs 0 r s c hc
  exact ⟨x, List.mk_mem_enum_iff_getElem?.1 hmem, hen⟩

/-- C3 at children [A, B] handling an Info record, A enabled only from Error on: whether
A's Handle would fail or not, only B is called and the outcome is the same. -/
theorem parallel_handle_skips_disabled_witness :
    (∀ c ∈ parallelHandler.calls Stub.ops
        (NewParallelHandler [stubErrorOnly "A" (some "boom"), stubOk "B"])
        (sampleRecord LevelInfo "hello") [],
        ∃ h, [stubErrorOnly "A" (some "boom"), stubOk "B"][c.child]? = some h
          ∧ Stub.ops.Enabled h (sampleRecord LevelInfo "hello").Level = true)
    ∧ parallelHandler.Handle Stub.ops
        (NewParallelHandler [stubErrorOnly "A" (some "boom"), stubOk "B"])
        (sampleRecord LevelInfo "hello") []
        = parallelHandler.Handle Stub.ops
            (NewParallelHandler [stubErrorOnly "A" none, stubOk "B"])
            (sampleRecord LevelInfo "hello") []
    ∧ parallelHandler.calls Stub.ops
        (NewParallelHandler [stubErrorOnly "A" (some "boom"), stubOk "B"])
        (sampleRecord LevelInfo "hello") []
        = parallelHandler.calls Stub.ops
            (NewParallelHandler [stubErrorOnly "A" none, stubOk "B"])
            (sampleRecord LevelInfo "hello") [] :=
  parallel_handle_skips_disabled Stub.ops [stubErrorOnly "A" (some "boom"), stubOk "B"]
    [stubErrorOnly "A" none, stubOk "B"] (sampleRecord LevelInfo "hello") []
    (List.Forall₂.cons ⟨by decide, fun h => absurd h (by decide)⟩
      (List.Forall₂.cons ⟨rfl, fun _ => rfl⟩ List.Forall₂.nil))

/-- C4: Handle of the parallel handler returns nil exactly when the log of calls shows,
for each child enabled for the record's level, in list order, one call with the record
that returned nil.  It returns nil when every enabled child returns nil whatever the
world; and for children whose result does not depend on the world, it returns nil if
and only if every enabled child returns nil. -/
theorem parallel_handle_success_iff {σ H : Type} (I : Handler σ H) (hs : List H)
    (r : Record) (s : σ) :
    ((parallelHandler.Handle I (NewParallelHandler hs) r s).1 = none
      ↔ parallelHandler.calls I (NewParallelHandler hs) r s
          = (enabledChildren I r.Level 0 hs).map
              (fun p => { child := p.1, record := r, result := none }))
    ∧ ((∀ h ∈ hs, I.Enabled h r.Level = true → ∀ t, (I.Handle h r t).1 = none)
        → (parallelHandler.Handle I (NewParallelHandler hs) r s).1 = none)
    ∧ ((∀ h ∈ hs, ∀ t t', (I.Handle h r t).1 = (I.Handle h r t').1)
        → ((parallelHandler.Handle I (NewParallelHandler hs) r s).1 = none
            ↔ ∀ h ∈ hs, I.Enabled h r.Level = true → ∀ t, (I.Handle h r t).1 = none)) := by
  refine ⟨handleLoop_none_iff I hs 0 r s, handleLoop_none_of_all I hs r s, ?_⟩
  intro hdet
  constructor
  · intro hres h hh hen t
    obtain ⟨t', ht'⟩ := handleLoop_none_imp I hs r s hres h hh hen
    rw [hdet h hh t t', ht']
  · exact handleLoop_none_of_all I hs r s

/-- C4 at children [ok, disabled, ok] handling an Info record: the call succeeds and
the two enabled children are called once each, in list order. -/
theorem parallel_handle_success_iff_witness :
    (parallelHandler.Handle Stub.ops
        (NewParallelHandler [stubOk "a", stubErrorOnly "b" (some "boom"), stubOk "c"])
        (sampleRecord LevelInfo "hello") []).1 = none
    ∧ parallelHandler.calls Stub.ops
        (NewParallelHandler [stubOk "a", stubErrorOnly "b" (some "boom"), stubOk "c"])
        (sampleRecord LevelInfo "hello") []
        = [{ child := 0, record := sampleRecord LevelInfo "hello", result := none },
           { child := 2, record := sampleRecord LevelInfo "hello", result := none }] :=
  ⟨by decide,
    ((parallel_handle_success_iff Stub.ops
        [stubOk "a", stubErrorOnly "b" (some "boom"), stubOk "c"]
        (sampleRecord LevelInfo "hello") []).1.1 (by decide)).trans (by decide)⟩

/-! ### WithAttrs and WithGroup of the parallel handler -/

/-- The loop of WithAttrs / WithGroup leaves the receiver's array alone, and fills the
slots from index `i` on with the derived children. -/
theorem deriveLoop_spec {H : Type} (f : H → H) (n i : Nat) (fr : DeriveFrame H)
    (hlen : fr.newHandlers.length = fr.handlers.length) (hin : i + n = fr.handlers.length) :
    (parallelHandler.deriveLoop f n i fr).handlers = fr.handlers
    ∧ ∀ j, (parallelHandler.deriveLoop f n i fr).newHandlers[j]?
        = if i ≤ j then (fr.handlers[j]?).map (fun h => some (f h)) else fr.newHandlers[j]? := by
  induction n generalizing i fr with
  | zero =>
    refine ⟨rfl, fun j => ?_⟩
    simp only [parallelHandler.deriveLoop]
    split
    · rename_i hij
      have h1 : fr.handlers.length ≤ j := by omega
      have h2 : fr.newHandlers.length ≤ j := by omega
      rw [List.getElem?_eq_none h1, List.getElem?_eq_none h2]
      rfl
    · rfl
  | succ n ih =>
    have hi : i < fr.handlers.length := by omega
    have hget : fr.handlers[i]? = some fr.handlers[i] := List.getElem?_eq_getElem hi
    simp only [parallelHandler.deriveLoop, hget]
    have h := ih (i + 1)
      { fr with newHandlers := fr.newHandlers.set i (some (f fr.handlers[i])) }
      (by simp [hlen]) (by simp; omega)
    refine ⟨h.1, fun j => ?_⟩
    rw [h.2 j]
    simp only
    by_cases hij : i + 1 ≤ j
    · have : i ≤ j := by omega
      simp [hij, this]
    · by_cases hij' : i = j
      · subst hij'
        have hi' : i < fr.newHandlers.length := by omega
        simp [hget, hi']
      · have : ¬ i ≤ j := by omega
        simp [hij, this, List.getElem?_set_ne hij']

theorem deriveFrame_spec {H : Type} (f : H → H) (hs : List H) :
    (parallelHandler.deriveFrame f (NewParallelHandler hs)).handlers = hs
    ∧ (parallelHandler.deriveFrame f (NewParallelHandler hs)).newHandlers
        = (hs.map f).map some := by
  have h := deriveLoop_spec f hs.length 0
    { handlers := hs, newHandlers := List.replicate hs.length none } (by simp) (by simp)
  refine ⟨h.1, ?_⟩
  apply List.ext_getElem?
  intro j
  have hj := h.2 j
  simp only [Nat.zero_le, if_true] at hj
  show (parallelHandler.deriveLoop f hs.length 0
    { handlers := hs, newHandlers := List.replicate hs.length none }).newHandlers[j]? = _
  rw [hj]
  simp only [List.getElem?_map, Option.map_map]
  rfl

theorem derive_handlers {H : Type} (f : H → H) (hs : List H) :
    (parallelHandler.derive f (NewParallelHandler hs)).handlers = hs.map f := by
  unfold parallelHandler.derive
  rw [(deriveFrame_spec f hs).2]
  simp [NewParallelHandler, List.reduceOption]

/-- C5: WithAttrs(a) of a parallel handler with children [h1..hn] yields a parallel
handler whose children are [h1.WithAttrs(a), ..., hn.WithAttrs(a)], and WithGroup(g)
one whose children are [h1.WithGroup(g), ..., hn.WithGroup(g)]: the same number of
children in the same order, every slot of the new array filled; the array behind the
receiver's own child list is the same after the loop as before. -/
theorem parallel_derive_maps_children {σ H : Type} (I : Handler σ H) (hs : List H)
    (a : List Attr) (g : String) :
    (parallelHandler.WithAttrs I (NewParallelHandler hs) a).handlers
        = hs.map (fun h => I.WithAttrs h a)
    ∧ (parallelHandler.WithGroup I (NewParallelHandler hs) g).handlers
        = hs.map (fun h => I.WithGroup h g)
    ∧ (parallelHandler.WithAttrs I (NewParallelHandler hs) a).handlers.length = hs.length
    ∧ (parallelHandler.WithGroup I (NewParallelHandler hs) g).handlers.length = hs.length
    ∧ (∀ i : Nat, (parallelHandler.WithAttrs I (NewParallelHandler hs) a).handlers[i]?
        = (hs[i]?).map (fun h => I.WithAttrs h a))
    ∧ (∀ i : Nat, (parallelHandler.WithGroup I (NewParallelHandler hs) g).handlers[i]?
        = (hs[i]?).map (fun h => I.WithGroup h g))
    ∧ (parallelHandler.deriveFrame (fun h => I.WithAttrs h a) (NewParallelHandler hs)).handlers
        = hs
    ∧ (parallelHandler.deriveFrame (fun h => I.WithGroup h g) (NewParallelHandler hs)).handlers
        = hs
    ∧ (parallelHandler.deriveFrame (fun h => I.WithAttrs h a) (NewParallelHandler hs)).newHandlers
        = (hs.map (fun h => I.WithAttrs h a)).map some
    ∧ (parallelHandler.deriveFrame (fun h => I.WithGroup h g) (NewParallelHandler hs)).newHandlers
        = (hs.map (fun h => I.WithGroup h g)).map some := by
  have ha := derive_handlers (fun h => I.WithAttrs h a) hs
  have hg := derive_handlers (fun h => I.WithGroup h g) hs
  refine ⟨ha, hg, ?_, ?_, ?_, ?_, (deriveFrame_spec _ hs).1, (deriveFrame_spec _ hs).1,
    (deriveFrame_spec _ hs).2, (deriveFrame_spec _ hs).2⟩
  · show (parallelHandler.derive (fun h => I.WithAttrs h a) (NewParallelHandler hs)).handlers.length = _
    rw [ha, List.length_map]
  · show (parallelHandler.derive (fun h => I.WithGroup h g) (NewParallelHandler hs)).handlers.length = _
    rw [hg, List.length_map]
  · intro i
    show (parallelHandler.derive (fun h => I.WithAttrs h a) (NewParallelHandler hs)).handlers[i]? = _
    rw [ha, List.getElem?_map]
  · intro i
    show (parallelHandler.derive (fun h => I.WithGroup h g) (NewParallelHandler hs)).handlers[i]? = _
    rw [hg, List.getElem?_map]

/-- C1 at children [errors only, from Info on]: enabled for Info, not for Debug. -/
theorem parallel_enabled_is_or_witness :
    parallelHandler.Enabled Stub.ops
        (NewParallelHandler [stubErrorOnly "A" none, stubOk "B"]) LevelInfo = true
    ∧ parallelHandler.Enabled Stub.ops
        (NewParallelHandler [stubErrorOnly "A" none, stubOk "B"]) LevelDebug = false :=
  ⟨((parallel_enabled_is_or Stub.ops [stubErrorOnly "A" none, stubOk "B"] LevelInfo).1).trans
      (by decide),
    ((parallel_enabled_is_or Stub.ops [stubErrorOnly "A" none, stubOk "B"] LevelDebug).1).trans
      (by decide)⟩

/-- C5 at two children and one attribute: the derived handler has the two derived
children, in order. -/
theorem parallel_derive_maps_children_witness :
    (parallelHandler.WithAttrs Stub.ops (NewParallelHandler [stubOk "a", stubOk "b"])
        [{ Key := "k", Value := Value.Int64Value 1 }]).handlers
      = [{ name := "a", minLevel := LevelInfo, fails := none, derived := ["k"] },
         { name := "b", minLevel := LevelInfo, fails := none, derived := ["k"] }] :=
  ((parallel_derive_maps_children Stub.ops [stubOk "a", stubOk "b"]
      [{ Key := "k", Value := Value.Int64Value 1 }] "g").1).trans (by decide)

/-! ## Theorems: pretty handler -/

/-! ### The render loops -/

theorem attrsLoop_eq (p : String) (attrs : List Attr) (keys out : List String) :
    prettyHandler.attrsLoop p attrs (keys, out)
      = ((attrs.map (fun a => p ++ a.Key)).reverse ++ keys,
          out ++ attrs.map (fun a => prettyLogAttr (p ++ a.Key) a.Value)) := by
  induction attrs generalizing keys out with
  | nil => simp [prettyHandler.attrsLoop]
  | cons a rest ih => simp [prettyHandler.attrsLoop, ih]

theorem fixedLoop_eq (keys : List String) (es : List (String × String)) (out : List String) :
    prettyHandler.fixedLoop keys es out
      = out ++ (es.filter (fun e => decide (e.1 ∉ keys))).map Prod.snd := by
  induction es generalizing out with
  | nil => simp [prettyHandler.fixedLoop]
  | cons e rest ih =>
    obtain ⟨k, v⟩ := e
    by_cases hk : k ∈ keys
    · simp [prettyHandler.fixedLoop, hk, ih]
    · simp [prettyHandler.fixedLoop, hk, ih]

/-- The writes of Handle: the header and capture site part, then one line per explicit
attribute, then the lines of the fixed entries that no explicit attribute overrides. -/
theorem render_eq (ρ : RangeOrder) (hp : Heap) (ph : prettyHandler) (r : Record) :
    prettyHandler.render ρ hp ph r
      = ph.preamble r ++ ph.explicitLines r ++ (ph.fixedWritten ρ hp r).map Prod.snd := by
  unfold prettyHandler.render prettyHandler.preamble prettyHandler.explicitLines
    prettyHandler.fixedWritten prettyHandler.explicitKeys
  simp only [attrsLoop_eq, fixedLoop_eq, List.append_nil, List.mem_reverse]
  split <;> simp

theorem mem_fixedWritten (ρ : RangeOrder) (hp : Heap) (ph : prettyHandler) (r : Record)
    (k v : String) :
    (k, v) ∈ ph.fixedWritten ρ hp r
      ↔ (hp.mapAt ph.fixedAttrs).lookup k = some v ∧ ∀ a ∈ r.attrs, ph.groupPrefix ++ a.Key ≠ k := by
  unfold prettyHandler.fixedWritten prettyHandler.explicitKeys
  rw [List.mem_filter, (ρ.perm _).mem_iff]
  have hmem : (k, v) ∈ GoMap.pairs (hp.mapAt ph.fixedAttrs)
      ↔ (hp.mapAt ph.fixedAttrs).lookup k = some v := by
    rw [← Option.mem_def, AList.mem_lookup_iff]
    unfold GoMap.pairs
    constructor
    · intro h
      obtain ⟨e, he, heq⟩ := List.mem_map.1 h
      obtain ⟨ek, ev⟩ := e
      simp only [Prod.mk.injEq] at heq
      obtain ⟨rfl, rfl⟩ := heq
      exact he
    · intro h
      exact List.mem_map.2 ⟨⟨k, v⟩, h, rfl⟩
  rw [hmem]
  simp

/-! ### Maps in memory -/

theorem lookup_insertAll (q : String) (es : List (String × String)) (m : GoMap) :
    (m.insertAll es).lookup q
      = match lastValue q es with
        | some v => some v
        | none => m.lookup q := by
  induction es generalizing m with
  | nil => rfl
  | cons e es ih =>
    have hstep : m.insertAll (e :: es) = GoMap.insertAll (m.insert e.1 e.2) es := rfl
    rw [hstep, ih]
    simp only [lastValue]
    cases lastValue q es with
    | some v => rfl
    | none =>
      by_cases he : e.1 = q
      · subst he
        simp [AList.lookup_insert]
      · have hne : q ≠ e.1 := fun h => he h.symm
        simp [he, AList.lookup_insert_ne hne]

theorem lastValue_eq_some_iff (q : String) (es : List (String × String))
    (hnd : (es.map Prod.fst).Nodup) (v : String) :
    lastValue q es = some v ↔ (q, v) ∈ es := by
  induction es generalizing v with
  | nil => simp [lastValue]
  | cons e es ih =>
    obtain ⟨k, w⟩ := e
    simp only [List.map_cons, List.nodup_cons] at hnd
    simp only [lastValue, List.mem_cons, Prod.mk.injEq]
    cases hl : lastValue q es with
    | some u =>
      have hu : (q, u) ∈ es := (ih hnd.2 u).1 hl
      have hk : k ≠ q := by
        intro hkq
        subst hkq
        exact hnd.1 (List.mem_map.2 ⟨(k, u), hu, rfl⟩)
      simp only
      rw [← ih hnd.2 v, hl]
      constructor
      · intro h
        exact Or.inr h
      · rintro (⟨h, _⟩ | h)
        · exact absurd h.symm hk
        · exact h
    | none =>
      have hno : (q, v) ∉ es := fun h => by
        have := (ih hnd.2 v).2 h
        rw [hl] at this
        cases this
      simp only
      by_cases hk : k = q
      · subst hk
        simp only [if_true, Option.some.injEq]
        constructor
        · intro h
          exact Or.inl (by simp [h])
        · rintro (h | h)
          · simp at h
            exact h.symm
          · exact absurd h hno
      · simp only [hk, if_false]
        constructor
        · intro h
          cases h
        · rintro (⟨h, _⟩ | h)
          · exact absurd h.symm hk
          · exact absurd h hno

theorem pairs_nodup (m : GoMap) : ((GoMap.pairs m).map Prod.fst).Nodup := by
  have h : (GoMap.pairs m).map Prod.fst = m.keys := by
    unfold GoMap.pairs AList.keys List.keys
    rw [List.map_map]
    rfl
  rw [h]
  exact m.keys_nodup

theorem mem_pairs_iff (m : GoMap) (k v : String) :
    (k, v) ∈ GoMap.pairs m ↔ m.lookup k = some v := by
  rw [← Option.mem_def, AList.mem_lookup_iff]
  unfold GoMap.pairs
  constructor
  · intro h
    obtain ⟨e, he, heq⟩ := List.mem_map.1 h
    obtain ⟨ek, ev⟩ := e
    simp only [Prod.mk.injEq] at heq
    obtain ⟨rfl, rfl⟩ := heq
    exact he
  · intro h
    exact List.mem_map.2 ⟨⟨k, v⟩, h, rfl⟩

/-- Copying the visited entries of a map into an empty map gives a map with the same
lookups, whatever the order of the visit. -/
theorem lookup_copy (ρ : RangeOrder) (m : GoMap) (q : String) :
    (GoMap.insertAll ∅ (ρ.visit m)).lookup q = m.lookup q := by
  have hnd : ((ρ.visit m).map Prod.fst).Nodup :=
    ((ρ.perm m).map Prod.fst).nodup_iff.2 (pairs_nodup m)
  rw [lookup_insertAll]
  apply Option.ext
  intro v
  rw [Option.mem_def, Option.mem_def, ← mem_pairs_iff, ← (ρ.perm m).mem_iff,
    ← lastValue_eq_some_iff q (ρ.visit m) hnd v]
  cases lastValue q (ρ.visit m) with
  | some u => rfl
  | none => simp

theorem store_last (maps : List GoMap) (m : GoMap) (n : Nat) (k v : String) :
    Heap.store { maps := maps ++ [m], mutexes := n } maps.length k v
      = { maps := maps ++ [m.insert k v], mutexes := n } := by
  unfold Heap.store
  simp [List.getD_eq_getElem?_getD, List.set_append_right]

theorem copyLoop_last (maps : List GoMap) (m : GoMap) (n : Nat) (es : List (String × String)) :
    prettyHandler.copyLoop maps.length es { maps := maps ++ [m], mutexes := n }
      = { maps := maps ++ [m.insertAll es], mutexes := n } := by
  induction es generalizing m with
  | nil => rfl
  | cons e es ih =>
    obtain ⟨k, v⟩ := e
    simp only [prettyHandler.copyLoop, store_last, ih]
    rfl

theorem addLoop_last (p : String) (maps : List GoMap) (m : GoMap) (n : Nat) (a : List Attr) :
    prettyHandler.addLoop p maps.length a { maps := maps ++ [m], mutexes := n }
      = { maps := maps ++ [m.insertAll (qualifiedEntries p a)], mutexes := n } := by
  induction a generalizing m with
  | nil => rfl
  | cons x a ih =>
    simp only [prettyHandler.addLoop, store_last, ih]
    rfl

theorem mapAt_append (maps : List GoMap) (n : Nat) (ref : Option Nat) :
    Heap.mapAt { maps := maps ++ [∅], mutexes := n } ref
      = Heap.mapAt { maps := maps, mutexes := n } ref := by
  cases ref with
  | none => rfl
  | some i =>
    simp only [Heap.mapAt, List.getD_eq_getElem?_getD]
    by_cases hi : i < maps.length
    · rw [List.getElem?_append_left hi]
    · have hle : maps.length ≤ i := Nat.le_of_not_lt hi
      rw [List.getElem?_append_right hle, List.getElem?_eq_none hle]
      cases hsub : i - maps.length with
      | zero => rfl
      | succ j => rfl

/-- WithAttrs appends one map to memory and changes nothing else. -/
theorem withAttrs_eq (ρ : RangeOrder) (ph : prettyHandler) (a : List Attr) (hp : Heap) :
    ph.WithAttrs ρ a hp
      = ({ mutex := ph.mutex, fixedAttrs := some hp.maps.length, groupPrefix := ph.groupPrefix,
           opts := ph.opts, w := ph.w },
         { maps := hp.maps ++ [newFixedAttrs ρ ph a hp], mutexes := hp.mutexes }) := by
  unfold prettyHandler.WithAttrs newFixedAttrs
  simp only [mapAt_append, copyLoop_last, addLoop_last]

theorem mapAt_withAttrs_new (ρ : RangeOrder) (ph : prettyHandler) (a : List Attr) (hp : Heap) :
    (ph.WithAttrs ρ a hp).2.mapAt (ph.WithAttrs ρ a hp).1.fixedAttrs = newFixedAttrs ρ ph a hp := by
  rw [withAttrs_eq]
  simp [Heap.mapAt, List.getD_eq_getElem?_getD]

theorem mapAt_withAttrs_old (ρ : RangeOrder) (ph : prettyHandler) (a : List Attr) (hp : Heap)
    (ref : Option Nat) (href : ∀ i, ref = some i → i < hp.maps.length) :
    (ph.WithAttrs ρ a hp).2.mapAt ref = hp.mapAt ref := by
  rw [withAttrs_eq]
  cases ref with
  | none => rfl
  | some i =>
    have hi := href i rfl
    simp [Heap.mapAt, List.getD_eq_getElem?_getD, List.getElem?_append_left hi]

theorem lookup_newFixedAttrs (ρ : RangeOrder) (ph : prettyHandler) (a : List Attr) (hp : Heap)
    (q : String) :
    (newFixedAttrs ρ ph a hp).lookup q
      = match lastValue q (qualifiedEntries ph.groupPrefix a) with
        | some v => some v
        | none => (hp.mapAt ph.fixedAttrs).lookup q := by
  unfold newFixedAttrs
  rw [lookup_insertAll, lookup_copy]

/-! ### Enabled -/

/-- C6: a pretty handler whose configured minimum level is `m` is enabled for level `L`
exactly when `m ≤ L`; NewPrettyHandler configures Info when it is given no options, or
options without a level, and the given level otherwise; so a handler built without a
level is not enabled for Debug and is enabled for Info, Warn and Error; WithAttrs and
WithGroup keep the options. -/
theorem pretty_enabled_iff_min_level (ph : prettyHandler) (m L : Level)
    (hm : ph.opts.Level = some m) :
    ph.Enabled L = some (decide (m ≤ L))
    ∧ (ph.Enabled L = some true ↔ m ≤ L)
    ∧ (∀ w hp, (NewPrettyHandler w none hp).1.opts.Level = some LevelInfo)
    ∧ (∀ w o hp, o.Level = none → (NewPrettyHandler w (some o) hp).1.opts.Level = some LevelInfo)
    ∧ (∀ w o hp, o.Level = some m → (NewPrettyHandler w (some o) hp).1.opts.Level = some m)
    ∧ (∀ w hp, (NewPrettyHandler w none hp).1.Enabled LevelDebug = some false
        ∧ (NewPrettyHandler w none hp).1.Enabled LevelInfo = some true
        ∧ (NewPrettyHandler w none hp).1.Enabled LevelWarn = some true
        ∧ (NewPrettyHandler w none hp).1.Enabled LevelError = some true)
    ∧ (∀ ρ a hp, (ph.WithAttrs ρ a hp).1.opts = ph.opts)
    ∧ (∀ g hp, (ph.WithGroup g hp).1.opts = ph.opts) := by
  refine ⟨?_, ?_, ?_, ?_, ?_, ?_, ?_, ?_⟩
  · simp [prettyHandler.Enabled, hm]
  · simp [prettyHandler.Enabled, hm]
  · intro w hp
    rfl
  · intro w o hp ho
    simp [NewPrettyHandler, ho]
  · intro w o hp ho
    simp [NewPrettyHandler, ho]
  · intro w hp
    exact ⟨rfl, rfl, rfl, rfl⟩
  · intro ρ a hp
    rw [withAttrs_eq]
  · intro g hp
    rfl

/-- C6 at the handler built with no options, asked about Debug: the minimum is Info and
the handler is not enabled. -/
theorem pretty_enabled_iff_min_level_witness :
    (NewPrettyHandler 1 none Heap.empty).1.opts.Level = some LevelInfo
    ∧ (NewPrettyHandler 1 none Heap.empty).1.Enabled LevelDebug
        = some (decide (LevelInfo ≤ LevelDebug)) :=
  ⟨rfl, (pretty_enabled_iff_min_level (NewPrettyHandler 1 none Heap.empty).1 LevelInfo
      LevelDebug rfl).1⟩

/-! ### Rendering of values -/

/-- C9: a byte sequence of length N carried as an attribute value is rendered by
prettyLogValue as the text bytes(N), N in decimal, whatever the bytes are (also for the
empty sequence), and its attribute line is the indented line "key: bytes(N)". -/
theorem pretty_bytes_value (b : List UInt8) (key : String) :
    prettyLogValue (Value.AnyValue (Dynamic.bytes b)) = "bytes(" ++ Nat.repr b.length ++ ")"
    ∧ prettyLogAttr key (Value.AnyValue (Dynamic.bytes b))
        = "    \x1b[30m" ++ key ++ ": " ++ ("bytes(" ++ Nat.repr b.length ++ ")") ++ "\x1b[0m\n"
    ∧ (∀ b' : List UInt8, b'.length = b.length →
        prettyLogValue (Value.AnyValue (Dynamic.bytes b'))
          = prettyLogValue (Value.AnyValue (Dynamic.bytes b)))
    ∧ prettyLogValue (Value.AnyValue (Dynamic.bytes [])) = "bytes(0)" := by
  refine ⟨rfl, rfl, ?_, by decide⟩
  intro b' hb
  simp [prettyLogValue, Value.Kind, Value.anyBytes, hb]

/-- C9 at the three bytes 1, 2, 3 under key "payload". -/
theorem pretty_bytes_value_witness :
    prettyLogValue (Value.AnyValue (Dynamic.bytes [1, 2, 3])) = "bytes(3)"
    ∧ prettyLogAttr "payload" (Value.AnyValue (Dynamic.bytes [1, 2, 3]))
        = "    \x1b[30mpayload: bytes(3)\x1b[0m\n" :=
  ⟨((pretty_bytes_value [1, 2, 3] "payload").1).trans (by decide),
    ((pretty_bytes_value [1, 2, 3] "payload").2.1).trans (by decide)⟩

/-! ### Facts about the rendered text -/

theorem prettyLogAttr_length (k : String) (v : Value) :
    (prettyLogAttr k v).length = k.length + (prettyLogValue v).length + 16 := by
  simp only [prettyLogAttr, String.length_append]
  have h1 : ("    \x1b[30m" : String).length = 9 := by decide
  have h2 : (": " : String).length = 2 := by decide
  have h3 : ("\x1b[0m\n" : String).length = 5 := by decide
  omega

theorem prettyLogAttr_ne_of_length (k q : String) (v : Value) (hlen : q.length ≠ k.length) :
    prettyLogAttr q v ≠ prettyLogAttr k v := by
  intro h
  have := congrArg String.length h
  rw [prettyLogAttr_length, prettyLogAttr_length] at this
  omega

theorem prettyLogAttr_data (k : String) (v : Value) :
    (prettyLogAttr k v).data
      = ' ' :: ' ' :: (("  \x1b[30m" ++ k ++ ": " ++ prettyLogValue v ++ "\x1b[0m\n").data) := by
  simp only [prettyLogAttr, String.data_append]
  rfl

theorem header_data (r : Record) : ∃ rest, (prettyHandler.header r).data = '\x1b' :: rest := by
  unfold prettyHandler.header levelToColor
  split_ifs <;> simp only [String.data_append] <;> exact ⟨_, rfl⟩

theorem sourceLine_data (f : Frame) : ∃ rest, (sourceLine f).data = ' ' :: '\x1b' :: rest := by
  unfold sourceLine
  simp only [String.data_append]
  exact ⟨_, rfl⟩

theorem sourceLine_ne_attr (f : Frame) (k : String) (v : Value) :
    sourceLine f ≠ prettyLogAttr k v := by
  intro h
  obtain ⟨rest, hrest⟩ := sourceLine_data f
  have hd := congrArg String.data h
  rw [hrest, prettyLogAttr_data] at hd
  simp at hd

theorem not_mem_sourceLoop (fs : List Frame) (k : String) (v : Value) :
    prettyLogAttr k v ∉ sourceLoop fs := by
  induction fs with
  | nil =>
    simp only [sourceLoop, List.mem_singleton]
    exact fun h => sourceLine_ne_attr _ k v h.symm
  | cons f rest ih =>
    cases rest with
    | nil =>
      simp only [sourceLoop, List.mem_singleton]
      exact fun h => sourceLine_ne_attr _ k v h.symm
    | cons f' rest' =>
      simp only [sourceLoop, List.mem_cons]
      rintro (h | h)
      · exact sourceLine_ne_attr _ k v h.symm
      · exact ih (by simpa [sourceLoop] using h)

/-- No write before the attribute lines is the line of an attribute. -/
theorem not_mem_preamble (ph : prettyHandler) (r : Record) (k : String) (v : Value) :
    prettyLogAttr k v ∉ ph.preamble r := by
  unfold prettyHandler.preamble
  simp only [List.mem_cons]
  rintro (h | h)
  · obtain ⟨rest, hrest⟩ := header_data r
    have hd := congrArg String.data h
    rw [hrest, prettyLogAttr_data] at hd
    simp at hd
  · split at h
    · exact not_mem_sourceLoop _ k v h
    · simp only [List.mem_singleton] at h
      have hd := congrArg String.length h
      rw [prettyLogAttr_length] at hd
      have : ("\n" : String).length = 1 := by decide
      omega

theorem render_congr (ρ : RangeOrder) (hp hp' : Heap) (ph : prettyHandler) (r : Record)
    (hmap : hp'.mapAt ph.fixedAttrs = hp.mapAt ph.fixedAttrs) :
    prettyHandler.render ρ hp' ph r = prettyHandler.render ρ hp ph r := by
  unfold prettyHandler.render
  rw [hmap]

theorem lastValue_qualified_none (p q : String) (a : List Attr)
    (hno : ∀ x ∈ a, p ++ x.Key ≠ q) : lastValue q (qualifiedEntries p a) = none := by
  induction a with
  | nil => rfl
  | cons x a ih =>
    have hx : p ++ x.Key ≠ q := hno x (List.mem_cons_self _ _)
    have ha : ∀ y ∈ a, p ++ y.Key ≠ q := fun y hy => hno y (List.mem_cons_of_mem _ hy)
    simp only [qualifiedEntries, List.map_cons, lastValue] at ih ⊢
    rw [ih ha]
    simp [hx]

/-! ### Group prefix and qualified keys -/

/-- C7: for a pretty handler h with group prefix p, the handler
h.WithGroup(g).WithAttrs([{k: v}]) stores the attribute under the key p ++ g ++ "." ++ k,
the stored line being the rendering of that key with v; no other key changes; rendering
a record without explicit attributes writes that line, which is not the line with key
k.  For a root handler the key is g ++ "." ++ k, the writes are the header part followed
by exactly that line, and the line with key k is not written. -/
theorem pretty_group_attr_key (ρ ρ' : RangeOrder) (hp : Heap) (h : prettyHandler)
    (g k : String) (v : Value) (r : Record) (hr : r.attrs = []) :
    ((groupThenAttr ρ h g k v hp).2.mapAt (groupThenAttr ρ h g k v hp).1.fixedAttrs).lookup
        (h.groupPrefix ++ g ++ "." ++ k)
      = some (prettyLogAttr (h.groupPrefix ++ g ++ "." ++ k) v)
    ∧ (∀ q, q ≠ h.groupPrefix ++ g ++ "." ++ k →
        ((groupThenAttr ρ h g k v hp).2.mapAt (groupThenAttr ρ h g k v hp).1.fixedAttrs).lookup q
          = (hp.mapAt h.fixedAttrs).lookup q)
    ∧ prettyLogAttr (h.groupPrefix ++ g ++ "." ++ k) v
        ∈ prettyHandler.render ρ' (groupThenAttr ρ h g k v hp).2 (groupThenAttr ρ h g k v hp).1 r
    ∧ prettyLogAttr (h.groupPrefix ++ g ++ "." ++ k) v ≠ prettyLogAttr k v
    ∧ (∀ w opts hp0,
        ((groupThenAttr ρ (NewPrettyHandler w opts hp0).1 g k v (NewPrettyHandler w opts hp0).2).2.mapAt
            (groupThenAttr ρ (NewPrettyHandler w opts hp0).1 g k v
              (NewPrettyHandler w opts hp0).2).1.fixedAttrs).lookup (g ++ "." ++ k)
          = some (prettyLogAttr (g ++ "." ++ k) v)
        ∧ prettyHandler.render ρ'
            (groupThenAttr ρ (NewPrettyHandler w opts hp0).1 g k v (NewPrettyHandler w opts hp0).2).2
            (groupThenAttr ρ (NewPrettyHandler w opts hp0).1 g k v (NewPrettyHandler w opts hp0).2).1 r
          = (groupThenAttr ρ (NewPrettyHandler w opts hp0).1 g k v
              (NewPrettyHandler w opts hp0).2).1.preamble r ++ [prettyLogAttr (g ++ "." ++ k) v]
        ∧ prettyLogAttr k v ∉ prettyHandler.render ρ'
            (groupThenAttr ρ (NewPrettyHandler w opts hp0).1 g k v (NewPrettyHandler w opts hp0).2).2
            (groupThenAttr ρ (NewPrettyHandler w opts hp0).1 g k v (NewPrettyHandler w opts hp0).2).1 r) := by
  have hlook : ∀ (h : prettyHandler) (hp : Heap) (q : String),
      ((groupThenAttr ρ h g k v hp).2.mapAt (groupThenAttr ρ h g k v hp).1.fixedAttrs).lookup q
        = if h.groupPrefix ++ g ++ "." ++ k = q
          then some (prettyLogAttr (h.groupPrefix ++ g ++ "." ++ k) v)
          else (hp.mapAt h.fixedAttrs).lookup q := by
    intro h hp q
    unfold groupThenAttr
    rw [mapAt_withAttrs_new, lookup_newFixedAttrs]
    simp only [prettyHandler.WithGroup, qualifiedEntries, List.map_cons, List.map_nil, lastValue]
    split_ifs <;> rfl
  have hne : ∀ p : String, prettyLogAttr (p ++ g ++ "." ++ k) v ≠ prettyLogAttr k v := by
    intro p
    apply prettyLogAttr_ne_of_length
    simp only [String.length_append]
    have : (".": String).length = 1 := by decide
    omega
  have hmem : ∀ (h : prettyHandler) (hp : Heap),
      (h.groupPrefix ++ g ++ "." ++ k, prettyLogAttr (h.groupPrefix ++ g ++ "." ++ k) v)
        ∈ (groupThenAttr ρ h g k v hp).1.fixedWritten ρ' (groupThenAttr ρ h g k v hp).2 r := by
    intro h hp
    rw [mem_fixedWritten, hlook, hr]
    simp
  refine ⟨?_, ?_, ?_, hne _, ?_⟩
  · rw [hlook]
    simp
  · intro q hq
    rw [hlook]
    simp [Ne.symm hq]
  · rw [render_eq]
    exact List.mem_append_right _ (List.mem_map.2 ⟨_, hmem h hp, rfl⟩)
  · intro w opts hp0
    have hp0' : (NewPrettyHandler w opts hp0).1.groupPrefix = "" := rfl
    have hkey : (NewPrettyHandler w opts hp0).1.groupPrefix ++ g ++ "." ++ k = g ++ "." ++ k := by
      rw [hp0']
      simp
    have hfixed : (groupThenAttr ρ (NewPrettyHandler w opts hp0).1 g k v
        (NewPrettyHandler w opts hp0).2).1.fixedWritten ρ'
        (groupThenAttr ρ (NewPrettyHandler w opts hp0).1 g k v (NewPrettyHandler w opts hp0).2).2 r
        = [(g ++ "." ++ k, prettyLogAttr (g ++ "." ++ k) v)] := by
      have hmap : (groupThenAttr ρ (NewPrettyHandler w opts hp0).1 g k v
          (NewPrettyHandler w opts hp0).2).2.mapAt
          (groupThenAttr ρ (NewPrettyHandler w opts hp0).1 g k v
            (NewPrettyHandler w opts hp0).2).1.fixedAttrs
          = (∅ : GoMap).insert (g ++ "." ++ k) (prettyLogAttr (g ++ "." ++ k) v) := by
        unfold groupThenAttr
        rw [mapAt_withAttrs_new]
        unfold newFixedAttrs
        have hnil : ρ.visit (∅ : GoMap) = [] := (ρ.perm ∅).eq_nil
        simp only [prettyHandler.WithGroup, NewPrettyHandler, Heap.mapAt, hnil, qualifiedEntries,
          List.map_cons, List.map_nil]
        simp [GoMap.insertAll]
      unfold prettyHandler.fixedWritten prettyHandler.explicitKeys
      rw [hmap, hr]
      have hv := ρ'.perm ((∅ : GoMap).insert (g ++ "." ++ k) (prettyLogAttr (g ++ "." ++ k) v))
      have hpairs : GoMap.pairs ((∅ : GoMap).insert (g ++ "." ++ k)
          (prettyLogAttr (g ++ "." ++ k) v)) = [(g ++ "." ++ k, prettyLogAttr (g ++ "." ++ k) v)] := by
        simp [GoMap.pairs, AList.insert_entries]
      rw [hpairs] at hv
      rw [List.perm_singleton.1 hv]
      simp
    have hrender := render_eq ρ'
      (groupThenAttr ρ (NewPrettyHandler w opts hp0).1 g k v (NewPrettyHandler w opts hp0).2).2
      (groupThenAttr ρ (NewPrettyHandler w opts hp0).1 g k v (NewPrettyHandler w opts hp0).2).1 r
    rw [hfixed] at hrender
    have hexp : (groupThenAttr ρ (NewPrettyHandler w opts hp0).1 g k v
        (NewPrettyHandler w opts hp0).2).1.explicitLines r = [] := by
      simp [prettyHandler.explicitLines, hr]
    rw [hexp] at hrender
    simp only [List.append_nil, List.map_cons, List.map_nil] at hrender
    refine ⟨?_, hrender, ?_⟩
    · rw [hlook, hkey]
      simp
    · rw [hrender]
      simp only [List.mem_append, List.mem_singleton, not_or]
      refine ⟨not_mem_preamble _ r k v, fun heq => ?_⟩
      have := hne ""
      simp only [String.empty_append] at this
      exact this heq.symm

/-- C7 at the root handler built in empty memory, group "g", attribute k = "v" and a
record without attributes: the attribute is stored and written under key "g.k". -/
theorem pretty_group_attr_key_witness :
    ((groupThenAttr RangeOrder.stored (NewPrettyHandler 1 none Heap.empty).1 "g" "k"
        (Value.StringValue "v") (NewPrettyHandler 1 none Heap.empty).2).2.mapAt
      (groupThenAttr RangeOrder.stored (NewPrettyHandler 1 none Heap.empty).1 "g" "k"
        (Value.StringValue "v") (NewPrettyHandler 1 none Heap.empty).2).1.fixedAttrs).lookup "g.k"
      = some "    \x1b[30mg.k: \"v\"\x1b[0m\n"
    ∧ "    \x1b[30mg.k: \"v\"\x1b[0m\n"
        ∈ prettyHandler.render RangeOrder.reversed
            (groupThenAttr RangeOrder.stored (NewPrettyHandler 1 none Heap.empty).1 "g" "k"
              (Value.StringValue "v") (NewPrettyHandler 1 none Heap.empty).2).2
            (groupThenAttr RangeOrder.stored (NewPrettyHandler 1 none Heap.empty).1 "g" "k"
              (Value.StringValue "v") (NewPrettyHandler 1 none Heap.empty).2).1
            (sampleRecord LevelInfo "hello") :=
  ⟨(pretty_group_attr_key RangeOrder.stored RangeOrder.reversed
      (NewPrettyHandler 1 none Heap.empty).2 (NewPrettyHandler 1 none Heap.empty).1 "g" "k"
      (Value.StringValue "v") (sampleRecord LevelInfo "hello") rfl).1,
    (pretty_group_attr_key RangeOrder.stored RangeOrder.reversed
      (NewPrettyHandler 1 none Heap.empty).2 (NewPrettyHandler 1 none Heap.empty).1 "g" "k"
      (Value.StringValue "v") (sampleRecord LevelInfo "hello") rfl).2.2.1⟩

/-! ### Explicit attributes and fixed attributes -/

theorem validIn_withAttrs (ρ : RangeOrder) (h ph : prettyHandler) (a : List Attr) (hp : Heap)
    (hv : h.ValidIn hp) : h.ValidIn (ph.WithAttrs ρ a hp).2 := by
  intro ref href
  rw [withAttrs_eq]
  have := hv ref href
  simp only [List.length_append, List.length_singleton]
  omega

/-- C10: deriving h.WithAttrs(a) or h.WithGroup(g) (or h.WithGroup(g).WithAttrs(a), whose
intermediate handler holds the same map value as h) leaves the map that h refers to as it
was, so h renders every record as before; the struct of h is never assigned to.  Of two
children derived from h by WithAttrs(a₁) and WithAttrs(a₂), the first keeps its map when
the second is derived, and each has, at every key that its own attributes do not
qualify to, just what h has there.  The assumption on h, that its map value is nil or
an allocated address, holds for a new handler and is kept by both derivations. -/
theorem pretty_derive_leaves_receiver (ρ ρ₁ ρ₂ ρ' : RangeOrder) (hp : Heap) (h : prettyHandler)
    (a a₁ a₂ : List Attr) (g : String) (r : Record) (hv : h.ValidIn hp) :
    (h.WithAttrs ρ a hp).2.mapAt h.fixedAttrs = hp.mapAt h.fixedAttrs
    ∧ prettyHandler.render ρ' (h.WithAttrs ρ a hp).2 h r = prettyHandler.render ρ' hp h r
    ∧ (h.WithGroup g hp).2 = hp
    ∧ prettyHandler.render ρ' (h.WithGroup g hp).2 h r = prettyHandler.render ρ' hp h r
    ∧ (h.WithGroup g hp).1.fixedAttrs = h.fixedAttrs
    ∧ ((h.WithGroup g hp).1.WithAttrs ρ a (h.WithGroup g hp).2).2.mapAt h.fixedAttrs
        = hp.mapAt h.fixedAttrs
    ∧ prettyHandler.render ρ' ((h.WithGroup g hp).1.WithAttrs ρ a (h.WithGroup g hp).2).2 h r
        = prettyHandler.render ρ' hp h r
    ∧ (twoChildren ρ₁ ρ₂ h a₁ a₂ hp).2.2.mapAt (twoChildren ρ₁ ρ₂ h a₁ a₂ hp).1.fixedAttrs
        = (h.WithAttrs ρ₁ a₁ hp).2.mapAt (h.WithAttrs ρ₁ a₁ hp).1.fixedAttrs
    ∧ prettyHandler.render ρ' (twoChildren ρ₁ ρ₂ h a₁ a₂ hp).2.2
          (twoChildren ρ₁ ρ₂ h a₁ a₂ hp).1 r
        = prettyHandler.render ρ' (h.WithAttrs ρ₁ a₁ hp).2 (h.WithAttrs ρ₁ a₁ hp).1 r
    ∧ (twoChildren ρ₁ ρ₂ h a₁ a₂ hp).2.2.mapAt h.fixedAttrs = hp.mapAt h.fixedAttrs
    ∧ (∀ q, (∀ x ∈ a₁, h.groupPrefix ++ x.Key ≠ q) →
        ((twoChildren ρ₁ ρ₂ h a₁ a₂ hp).2.2.mapAt
            (twoChildren ρ₁ ρ₂ h a₁ a₂ hp).1.fixedAttrs).lookup q
          = (hp.mapAt h.fixedAttrs).lookup q)
    ∧ (∀ q, (∀ x ∈ a₂, h.groupPrefix ++ x.Key ≠ q) →
        ((twoChildren ρ₁ ρ₂ h a₁ a₂ hp).2.2.mapAt
            (twoChildren ρ₁ ρ₂ h a₁ a₂ hp).2.1.fixedAttrs).lookup q
          = (hp.mapAt h.fixedAttrs).lookup q)
    ∧ (h.WithAttrs ρ a hp).1.ValidIn (h.WithAttrs ρ a hp).2
    ∧ h.ValidIn (h.WithAttrs ρ a hp).2
    ∧ (h.WithGroup g hp).1.ValidIn (h.WithGroup g hp).2
    ∧ (∀ w opts hp0, (NewPrettyHandler w opts hp0).1.ValidIn (NewPrettyHandler w opts hp0).2) := by
  have hold : ∀ (ρ : RangeOrder) (ph : prettyHandler) (a : List Attr),
      (ph.WithAttrs ρ a hp).2.mapAt h.fixedAttrs = hp.mapAt h.fixedAttrs :=
    fun ρ ph a => mapAt_withAttrs_old ρ ph a hp h.fixedAttrs hv
  have hnew : ∀ (ρ : RangeOrder) (a : List Attr),
      (h.WithAttrs ρ a hp).1.ValidIn (h.WithAttrs ρ a hp).2 := by
    intro ρ a ref href
    rw [withAttrs_eq] at href ⊢
    simp only [Option.some.injEq] at href
    subst href
    simp
  have hc1valid : (h.WithAttrs ρ₁ a₁ hp).1.ValidIn (h.WithAttrs ρ₁ a₁ hp).2 := hnew ρ₁ a₁
  have hc1 : (twoChildren ρ₁ ρ₂ h a₁ a₂ hp).2.2.mapAt (twoChildren ρ₁ ρ₂ h a₁ a₂ hp).1.fixedAttrs
      = (h.WithAttrs ρ₁ a₁ hp).2.mapAt (h.WithAttrs ρ₁ a₁ hp).1.fixedAttrs :=
    mapAt_withAttrs_old ρ₂ h a₂ (h.WithAttrs ρ₁ a₁ hp).2 _ hc1valid
  have hh1 : (h.WithAttrs ρ₁ a₁ hp).2.mapAt h.fixedAttrs = hp.mapAt h.fixedAttrs := hold ρ₁ h a₁
  have hh2 : (twoChildren ρ₁ ρ₂ h a₁ a₂ hp).2.2.mapAt h.fixedAttrs = hp.mapAt h.fixedAttrs := by
    have := mapAt_withAttrs_old ρ₂ h a₂ (h.WithAttrs ρ₁ a₁ hp).2 h.fixedAttrs
      (validIn_withAttrs ρ₁ h h a₁ hp hv)
    exact this.trans hh1
  refine ⟨hold ρ h a, render_congr ρ' _ _ h r (hold ρ h a), rfl, rfl, rfl, hold ρ _ a,
    render_congr ρ' _ _ h r (hold ρ _ a), hc1, render_congr ρ' _ _ _ r hc1, hh2, ?_, ?_,
    hnew ρ a, validIn_withAttrs ρ h h a hp hv, hv, ?_⟩
  · intro q hq
    rw [hc1, mapAt_withAttrs_new, lookup_newFixedAttrs, lastValue_qualified_none _ _ _ hq]
  · intro q hq
    show ((h.WithAttrs ρ₂ a₂ (h.WithAttrs ρ₁ a₁ hp).2).2.mapAt
      (h.WithAttrs ρ₂ a₂ (h.WithAttrs ρ₁ a₁ hp).2).1.fixedAttrs).lookup q = _
    rw [mapAt_withAttrs_new, lookup_newFixedAttrs, lastValue_qualified_none _ _ _ hq, hh1]
  · intro w opts hp0 ref href
    cases href

/-- C10 at the handler with the fixed attribute user = "bob": after deriving children
with the attributes a = 1 and b = 2, the handler still renders only its own attribute,
and the first child has no entry for b. -/
theorem pretty_derive_leaves_receiver_witness :
    prettyHandler.render RangeOrder.stored
        (sampleUserHandler.1.WithAttrs RangeOrder.stored
          [{ Key := "a", Value := Value.Int64Value 1 }] sampleUserHandler.2).2
        sampleUserHandler.1 (sampleRecord LevelInfo "hello")
      = ["\x1b[32m09:05:00 [INFO] hello\x1b[0m", "\n", "    \x1b[30muser: \"bob\"\x1b[0m\n"]
    ∧ ((twoChildren RangeOrder.stored RangeOrder.reversed sampleUserHandler.1
          [{ Key := "a", Value := Value.Int64Value 1 }]
          [{ Key := "b", Value := Value.Int64Value 2 }] sampleUserHandler.2).2.2.mapAt
        (twoChildren RangeOrder.stored RangeOrder.reversed sampleUserHandler.1
          [{ Key := "a", Value := Value.Int64Value 1 }]
          [{ Key := "b", Value := Value.Int64Value 2 }] sampleUserHandler.2).1.fixedAttrs).lookup "b"
      = none :=
  ⟨((pretty_derive_leaves_receiver RangeOrder.stored RangeOrder.stored RangeOrder.reversed
      RangeOrder.stored sampleUserHandler.2 sampleUserHandler.1
      [{ Key := "a", Value := Value.Int64Value 1 }]
      [{ Key := "a", Value := Value.Int64Value 1 }]
      [{ Key := "b", Value := Value.Int64Value 2 }] "g" (sampleRecord LevelInfo "hello")
      (by decide)).2.1).trans (by decide),
    ((pretty_derive_leaves_receiver RangeOrder.stored RangeOrder.stored RangeOrder.reversed
      RangeOrder.stored sampleUserHandler.2 sampleUserHandler.1
      [{ Key := "a", Value := Value.Int64Value 1 }]
      [{ Key := "a", Value := Value.Int64Value 1 }]
      [{ Key := "b", Value := Value.Int64Value 2 }] "g" (sampleRecord LevelInfo "hello")
      (by decide)).2.2.2.2.2.2.2.2.2.2.1 "b" (by decide)).trans (by decide)⟩

/-- An explicit attribute that carries the same value as the fixed attribute of the same
key renders to the same text as the stored line; that text is written once. -/
theorem explicit_same_value_written_once :
    prettyHandler.render RangeOrder.stored sampleUserHandler.2 sampleUserHandler.1
        { sampleRecord LevelInfo "hello" with
          attrs := [{ Key := "user", Value := Value.StringValue "bob" }] }
      = ["\x1b[32m09:05:00 [INFO] hello\x1b[0m", "\n", "    \x1b[30muser: \"bob\"\x1b[0m\n"] := by
  decide

/-! ## Theorems: async handler -/

/-- C11: Handle of the async handler built on any inner handler returns nil for every
record, whatever the inner Handle returns there: the returned result, and the world at
return (the inner world untouched, one goroutine started), are the same for an inner
handler that fails as for one that succeeds, under any behaviour of the inner handlers;
when the started goroutine runs, only the
world the inner Handle leaves remains of its outcome; and a parallel handler whose
children are all async handlers therefore always returns nil. -/
theorem async_handle_returns_nil {σ H : Type} (I : Handler σ H) (h : H) (r : Record)
    (s : σ × List (Started H)) :
    (asyncHandler.Handle I (NewAsyncHandler h) r s).1 = none
    ∧ (asyncHandler.Handle I (NewAsyncHandler h) r s).2
        = (s.1, s.2 ++ [{ handler := h, record := r }])
    ∧ (∀ (J : Handler σ H) (h' : H),
        (asyncHandler.Handle J (NewAsyncHandler h') r s).1
          = (asyncHandler.Handle I (NewAsyncHandler h) r s).1)
    ∧ (∀ (J : Handler σ H),
        asyncHandler.Handle J (NewAsyncHandler h) r s
          = asyncHandler.Handle I (NewAsyncHandler h) r s)
    ∧ (∀ t : σ, Started.run I { handler := h, record := r } t = (I.Handle h r t).2)
    ∧ (∀ hs : List H,
        (parallelHandler.Handle (asyncHandler.ops I)
          (NewParallelHandler (hs.map NewAsyncHandler)) r s).1 = none) := by
  refine ⟨rfl, rfl, fun _ _ => rfl, fun _ => rfl, fun _ => rfl, ?_⟩
  intro hs
  apply handleLoop_none_of_all
  intro x _ _ t
  rfl

/-- C11 at an inner handler whose Handle fails with "disk full": the async handler
returns nil all the same, and the failure is not in the world at return. -/
theorem async_handle_returns_nil_witness :
    (asyncHandler.Handle Stub.ops (NewAsyncHandler (stubFailing "b" "disk full"))
        (sampleRecord LevelInfo "hello") ([], [])).1 = none
    ∧ (asyncHandler.Handle Stub.ops (NewAsyncHandler (stubFailing "b" "disk full"))
        (sampleRecord LevelInfo "hello") ([], [])).1
        = (asyncHandler.Handle Stub.ops (NewAsyncHandler (stubOk "b"))
            (sampleRecord LevelInfo "hello") ([], [])).1
    ∧ (Stub.ops.Handle (stubFailing "b" "disk full") (sampleRecord LevelInfo "hello") []).1
        = some "disk full" :=
  ⟨(async_handle_returns_nil Stub.ops (stubFailing "b" "disk full")
      (sampleRecord LevelInfo "hello") ([], [])).1,
    ((async_handle_returns_nil Stub.ops (stubFailing "b" "disk full")
      (sampleRecord LevelInfo "hello") ([], [])).2.2.1 Stub.ops (stubOk "b")).symm,
    by decide⟩

theorem async_derive {σ H : Type} (I : Handler σ H) (ds : List Derivation) (h : H) :
    Handler.derive (asyncHandler.ops I) (NewAsyncHandler h) ds
      = NewAsyncHandler (Handler.derive I h ds) := by
  induction ds generalizing h with
  | nil => rfl
  | cons d rest ih =>
    cases d with
    | attrs a => exact ih (I.WithAttrs h a)
    | group g => exact ih (I.WithGroup h g)

/-- C12: the async handler built on h is enabled exactly when h is; its WithAttrs(a) is
the async handler built on h.WithAttrs(a) and its WithGroup(g) the one built on
h.WithGroup(g); so any chain of derivations applied to it gives the async handler built
on the same chain applied to h, enabled exactly when that inner handler is. -/
theorem async_delegates_and_wraps {σ H : Type} (I : Handler σ H) (h : H) (a : List Attr)
    (g : String) (l : Level) (ds : List Derivation) :
    asyncHandler.Enabled I (NewAsyncHandler h) l = I.Enabled h l
    ∧ asyncHandler.WithAttrs I (NewAsyncHandler h) a = NewAsyncHandler (I.WithAttrs h a)
    ∧ asyncHandler.WithGroup I (NewAsyncHandler h) g = NewAsyncHandler (I.WithGroup h g)
    ∧ Handler.derive (asyncHandler.ops I) (NewAsyncHandler h) ds
        = NewAsyncHandler (Handler.derive I h ds)
    ∧ (Handler.derive (asyncHandler.ops I) (NewAsyncHandler h) ds).handler
        = Handler.derive I h ds
    ∧ asyncHandler.Enabled I (Handler.derive (asyncHandler.ops I) (NewAsyncHandler h) ds) l
        = I.Enabled (Handler.derive I h ds) l := by
  have hd := async_derive I ds h
  refine ⟨rfl, rfl, rfl, hd, ?_, ?_⟩
  · rw [hd]
    rfl
  · rw [hd]
    rfl

/-- C12 at a test child, derived by WithGroup "g" and then WithAttrs of key "k": the
result wraps the child derived the same way. -/
theorem async_delegates_and_wraps_witness :
    (Handler.derive (asyncHandler.ops Stub.ops) (NewAsyncHandler (stubOk "a"))
        [Derivation.group "g",
         Derivation.attrs [{ Key := "k", Value := Value.Int64Value 1 }]]).handler
      = { name := "a", minLevel := LevelInfo, fails := none, derived := ["g.", "k"] } :=
  ((async_delegates_and_wraps Stub.ops (stubOk "a") [] "g" LevelInfo
      [Derivation.group "g",
       Derivation.attrs [{ Key := "k", Value := Value.Int64Value 1 }]]).2.2.2.2.1).trans
    (by decide)

/-! ### The mapping built by WithAttrs -/

theorem lastValue_append (q : String) (es₁ es₂ : List (String × String)) :
    lastValue q (es₁ ++ es₂)
      = match lastValue q es₂ with
        | some v => some v
        | none => lastValue q es₁ := by
  induction es₁ with
  | nil =>
    simp only [List.nil_append, lastValue]
    cases lastValue q es₂ <;> rfl
  | cons e es ih =>
    have hstep : lastValue q (e :: es ++ es₂)
        = match lastValue q (es ++ es₂) with
          | some v => some v
          | none => if e.1 = q then some e.2 else none := rfl
    rw [hstep, ih]
    cases lastValue q es₂ with
    | some v => rfl
    | none => rfl

theorem lastValue_qualified_last (p q : String) (pre post : List Attr) (x : Attr)
    (hx : p ++ x.Key = q) (hpost : ∀ y ∈ post, p ++ y.Key ≠ q) :
    lastValue q (qualifiedEntries p (pre ++ x :: post)) = some (prettyLogAttr q x.Value) := by
  have hsplit : qualifiedEntries p (pre ++ x :: post)
      = qualifiedEntries p pre ++ qualifiedEntries p (x :: post) := by
    simp [qualifiedEntries]
  rw [hsplit, lastValue_append]
  have hx' : lastValue q (qualifiedEntries p (x :: post)) = some (prettyLogAttr q x.Value) := by
    simp only [qualifiedEntries, List.map_cons, lastValue]
    have := lastValue_qualified_none p q post hpost
    simp only [qualifiedEntries] at this
    rw [this]
    simp [hx]
  rw [hx']

theorem lastValue_qualified_find (p q : String) (a : List Attr) :
    lastValue q (qualifiedEntries p a)
      = (a.reverse.find? (fun x => decide (p ++ x.Key = q))).map
          (fun x => prettyLogAttr q x.Value) := by
  induction a with
  | nil => rfl
  | cons x a ih =>
    simp only [qualifiedEntries, List.map_cons, lastValue, List.reverse_cons, List.find?_append]
      at ih ⊢
    rw [ih]
    cases List.find? (fun x => decide (p ++ x.Key = q)) a.reverse with
    | some y => rfl
    | none =>
      by_cases hx : p ++ x.Key = q
      · simp [hx]
      · simp [hx]

/-- C14: for a pretty handler h with fixed mapping M and group prefix p, the fixed
mapping M' of h.WithAttrs(a) has, at every key q, the rendered line of the last attribute
of a whose qualified key p ++ key is q when there is one, and M(q) otherwise (absent if
absent in M), whatever order the copy loop visits M in; the new handler has the group
prefix, options, writer and mutex of h. -/
theorem pretty_with_attrs_mapping (ρ : RangeOrder) (hp : Heap) (h : prettyHandler)
    (a : List Attr) (q : String) :
    (∀ pre x post, a = pre ++ x :: post → h.groupPrefix ++ x.Key = q →
        (∀ y ∈ post, h.groupPrefix ++ y.Key ≠ q) →
        ((h.WithAttrs ρ a hp).2.mapAt (h.WithAttrs ρ a hp).1.fixedAttrs).lookup q
          = some (prettyLogAttr q x.Value))
    ∧ ((∀ x ∈ a, h.groupPrefix ++ x.Key ≠ q) →
        ((h.WithAttrs ρ a hp).2.mapAt (h.WithAttrs ρ a hp).1.fixedAttrs).lookup q
          = (hp.mapAt h.fixedAttrs).lookup q)
    ∧ ((h.WithAttrs ρ a hp).2.mapAt (h.WithAttrs ρ a hp).1.fixedAttrs).lookup q
        = (match a.reverse.find? (fun x => decide (h.groupPrefix ++ x.Key = q)) with
          | some x => some (prettyLogAttr q x.Value)
          | none => (hp.mapAt h.fixedAttrs).lookup q)
    ∧ (h.WithAttrs ρ a hp).1.groupPrefix = h.groupPrefix
    ∧ (h.WithAttrs ρ a hp).1.opts = h.opts
    ∧ (h.WithAttrs ρ a hp).1.w = h.w
    ∧ (h.WithAttrs ρ a hp).1.mutex = h.mutex := by
  have hlook := lookup_newFixedAttrs ρ h a hp q
  rw [← mapAt_withAttrs_new] at hlook
  refine ⟨?_, ?_, ?_, ?_, ?_, ?_, ?_⟩
  · intro pre x post ha hx hpost
    rw [hlook, ha, lastValue_qualified_last _ _ _ _ _ hx hpost]
  · intro hno
    rw [hlook, lastValue_qualified_none _ _ _ hno]
  · rw [hlook, lastValue_qualified_find]
    cases List.find? (fun x => decide (h.groupPrefix ++ x.Key = q)) a.reverse <;> rfl
  · rw [withAttrs_eq]
  · rw [withAttrs_eq]
  · rw [withAttrs_eq]
  · rw [withAttrs_eq]

/-- C14 at the handler with the fixed attribute user = "bob", given the attributes
user = "eve", id = 1, user = "zoe": the entry for user is the line of the last one, and
the entry for id is new. -/
theorem pretty_with_attrs_mapping_witness :
    ((sampleUserHandler.1.WithAttrs RangeOrder.reversed
        [{ Key := "user", Value := Value.StringValue "eve" },
         { Key := "id", Value := Value.Int64Value 1 },
         { Key := "user", Value := Value.StringValue "zoe" }] sampleUserHandler.2).2.mapAt
      (sampleUserHandler.1.WithAttrs RangeOrder.reversed
        [{ Key := "user", Value := Value.StringValue "eve" },
         { Key := "id", Value := Value.Int64Value 1 },
         { Key := "user", Value := Value.StringValue "zoe" }]
        sampleUserHandler.2).1.fixedAttrs).lookup "user"
      = some "    \x1b[30muser: \"zoe\"\x1b[0m\n" :=
  ((pretty_with_attrs_mapping RangeOrder.reversed sampleUserHandler.2 sampleUserHandler.1
      [{ Key := "user", Value := Value.StringValue "eve" },
       { Key := "id", Value := Value.Int64Value 1 },
       { Key := "user", Value := Value.StringValue "zoe" }] "user").1
    [{ Key := "user", Value := Value.StringValue "eve" },
     { Key := "id", Value := Value.Int64Value 1 }]
    { Key := "user", Value := Value.StringValue "zoe" } [] rfl (by decide) (by decide)).trans
    (by decide)

/-! ### The group prefix built by WithGroup -/

theorem lookup_groupThenAttr (ρ : RangeOrder) (h : prettyHandler) (g k : String) (v : Value)
    (hp : Heap) (q : String) :
    ((groupThenAttr ρ h g k v hp).2.mapAt (groupThenAttr ρ h g k v hp).1.fixedAttrs).lookup q
      = if h.groupPrefix ++ g ++ "." ++ k = q
        then some (prettyLogAttr (h.groupPrefix ++ g ++ "." ++ k) v)
        else (hp.mapAt h.fixedAttrs).lookup q := by
  unfold groupThenAttr
  rw [mapAt_withAttrs_new, lookup_newFixedAttrs]
  simp only [prettyHandler.WithGroup, qualifiedEntries, List.map_cons, List.map_nil, lastValue]
  split_ifs <;> rfl

theorem lookup_withAttrs_single (ρ : RangeOrder) (h : prettyHandler) (k : String) (v : Value)
    (hp : Heap) (q : String) :
    ((h.WithAttrs ρ [{ Key := k, Value := v }] hp).2.mapAt
        (h.WithAttrs ρ [{ Key := k, Value := v }] hp).1.fixedAttrs).lookup q
      = if h.groupPrefix ++ k = q then some (prettyLogAttr (h.groupPrefix ++ k) v)
        else (hp.mapAt h.fixedAttrs).lookup q := by
  rw [mapAt_withAttrs_new, lookup_newFixedAttrs]
  simp only [qualifiedEntries, List.map_cons, List.map_nil, lastValue]
  split_ifs <;> rfl

/-- C15: for a pretty handler h with group prefix p and fixed mapping M, h.WithGroup(g)
has the group prefix p ++ g ++ "." and the very same map value, hence the mapping M with
the same keys and lines (no key is re-prefixed), the same options, writer and mutex, and
memory is untouched; on a root handler WithGroup("a").WithGroup("b") has the prefix
"a.b."; an attribute added before WithGroup is still found under its old key after it,
an attribute added after it is stored under the extended prefix, and the old entry is
still there afterwards when the two keys differ. -/
theorem pretty_with_group_extends_path (ρ ρ' : RangeOrder) (hp : Heap) (h : prettyHandler)
    (g k₁ k₂ : String) (v₁ v₂ : Value) :
    (h.WithGroup g hp).1.groupPrefix = h.groupPrefix ++ g ++ "."
    ∧ (h.WithGroup g hp).1.fixedAttrs = h.fixedAttrs
    ∧ (h.WithGroup g hp).2 = hp
    ∧ (h.WithGroup g hp).2.mapAt (h.WithGroup g hp).1.fixedAttrs = hp.mapAt h.fixedAttrs
    ∧ (h.WithGroup g hp).1.opts = h.opts
    ∧ (h.WithGroup g hp).1.w = h.w
    ∧ (h.WithGroup g hp).1.mutex = h.mutex
    ∧ (∀ w opts hp0,
        (((NewPrettyHandler w opts hp0).1.WithGroup "a" (NewPrettyHandler w opts hp0).2).1.WithGroup
          "b" (NewPrettyHandler w opts hp0).2).1.groupPrefix = "a.b.")
    ∧ (((h.WithAttrs ρ [{ Key := k₁, Value := v₁ }] hp).1.WithGroup g
          (h.WithAttrs ρ [{ Key := k₁, Value := v₁ }] hp).2).2.mapAt
        ((h.WithAttrs ρ [{ Key := k₁, Value := v₁ }] hp).1.WithGroup g
          (h.WithAttrs ρ [{ Key := k₁, Value := v₁ }] hp).2).1.fixedAttrs).lookup
          (h.groupPrefix ++ k₁)
        = some (prettyLogAttr (h.groupPrefix ++ k₁) v₁)
    ∧ ((attrGroupAttr ρ ρ' h k₁ v₁ g k₂ v₂ hp).2.mapAt
        (attrGroupAttr ρ ρ' h k₁ v₁ g k₂ v₂ hp).1.fixedAttrs).lookup
          (h.groupPrefix ++ g ++ "." ++ k₂)
        = some (prettyLogAttr (h.groupPrefix ++ g ++ "." ++ k₂) v₂)
    ∧ (h.groupPrefix ++ k₁ ≠ h.groupPrefix ++ g ++ "." ++ k₂ →
        ((attrGroupAttr ρ ρ' h k₁ v₁ g k₂ v₂ hp).2.mapAt
          (attrGroupAttr ρ ρ' h k₁ v₁ g k₂ v₂ hp).1.fixedAttrs).lookup (h.groupPrefix ++ k₁)
          = some (prettyLogAttr (h.groupPrefix ++ k₁) v₁)) := by
  have hpre : (h.WithAttrs ρ [{ Key := k₁, Value := v₁ }] hp).1.groupPrefix = h.groupPrefix := by
    rw [withAttrs_eq]
  refine ⟨rfl, rfl, rfl, rfl, rfl, rfl, rfl, fun _ _ _ => rfl, ?_, ?_, ?_⟩
  · show ((h.WithAttrs ρ [{ Key := k₁, Value := v₁ }] hp).2.mapAt
        (h.WithAttrs ρ [{ Key := k₁, Value := v₁ }] hp).1.fixedAttrs).lookup _ = _
    rw [lookup_withAttrs_single]
    simp
  · unfold attrGroupAttr
    rw [lookup_groupThenAttr, hpre]
    simp
  · intro hne
    unfold attrGroupAttr
    rw [lookup_groupThenAttr, hpre, lookup_withAttrs_single]
    simp [Ne.symm hne]

/-- C15 at the root handler: the attribute id added before WithGroup("req") stays under
"id", the attribute id added after it is stored under "req.id". -/
theorem pretty_with_group_extends_path_witness :
    ((attrGroupAttr RangeOrder.stored RangeOrder.reversed (NewPrettyHandler 1 none Heap.empty).1
        "id" (Value.Int64Value 1) "req" "id" (Value.Int64Value 2)
        (NewPrettyHandler 1 none Heap.empty).2).2.mapAt
      (attrGroupAttr RangeOrder.stored RangeOrder.reversed (NewPrettyHandler 1 none Heap.empty).1
        "id" (Value.Int64Value 1) "req" "id" (Value.Int64Value 2)
        (NewPrettyHandler 1 none Heap.empty).2).1.fixedAttrs).lookup "id"
      = some "    \x1b[30mid: 1\x1b[0m\n"
    ∧ (attrGroupAttr RangeOrder.stored RangeOrder.reversed (NewPrettyHandler 1 none Heap.empty).1
        "id" (Value.Int64Value 1) "req" "id" (Value.Int64Value 2)
        (NewPrettyHandler 1 none Heap.empty).2).1.groupPrefix = "req." :=
  ⟨((pretty_with_group_extends_path RangeOrder.stored RangeOrder.reversed
      (NewPrettyHandler 1 none Heap.empty).2 (NewPrettyHandler 1 none Heap.empty).1
      "req" "id" "id" (Value.Int64Value 1) (Value.Int64Value 2)).2.2.2.2.2.2.2.2.2.2
      (by decide)).trans (by decide),
    by decide⟩

/-! ### The writes of Handle -/

/-- C16: with capture-site rendering disabled, the writes of Handle are exactly the
header, one newline, the rendered line of each explicit attribute in the record's own
order (key = group prefix ++ attribute key), and then the stored lines of the fixed
entries written by the last loop; those entries are, in some order and each once, the
entries of the fixed mapping whose key is not the qualified key of an explicit
attribute of the record. -/
theorem pretty_handle_writes (ρ : RangeOrder) (hp : Heap) (ph : prettyHandler) (r : Record)
    (hsrc : ph.opts.AddSource = false) :
    prettyHandler.render ρ hp ph r
        = [prettyHandler.header r, "\n"]
          ++ r.attrs.map (fun a => prettyLogAttr (ph.groupPrefix ++ a.Key) a.Value)
          ++ (ph.fixedWritten ρ hp r).map Prod.snd
    ∧ (ph.fixedWritten ρ hp r).Perm
        ((GoMap.pairs (hp.mapAt ph.fixedAttrs)).filter
          (fun e => decide (e.1 ∉ r.attrs.map (fun a => ph.groupPrefix ++ a.Key))))
    ∧ ((ph.fixedWritten ρ hp r).map Prod.fst).Nodup
    ∧ (∀ k l, (k, l) ∈ ph.fixedWritten ρ hp r
        ↔ (hp.mapAt ph.fixedAttrs).lookup k = some l
          ∧ ∀ a ∈ r.attrs, ph.groupPrefix ++ a.Key ≠ k)
    ∧ (prettyHandler.render ρ hp ph r).length
        = 2 + r.attrs.length
          + ((GoMap.pairs (hp.mapAt ph.fixedAttrs)).filter
              (fun e => decide (e.1 ∉ r.attrs.map (fun a => ph.groupPrefix ++ a.Key)))).length := by
  have hperm : (ph.fixedWritten ρ hp r).Perm
      ((GoMap.pairs (hp.mapAt ph.fixedAttrs)).filter
        (fun e => decide (e.1 ∉ r.attrs.map (fun a => ph.groupPrefix ++ a.Key)))) :=
    (ρ.perm _).filter _
  have hrender : prettyHandler.render ρ hp ph r
      = [prettyHandler.header r, "\n"]
        ++ r.attrs.map (fun a => prettyLogAttr (ph.groupPrefix ++ a.Key) a.Value)
        ++ (ph.fixedWritten ρ hp r).map Prod.snd := by
    rw [render_eq]
    simp [prettyHandler.preamble, prettyHandler.explicitLines, hsrc]
  refine ⟨hrender, hperm, ?_, mem_fixedWritten ρ hp ph r, ?_⟩
  · unfold prettyHandler.fixedWritten
    have hnd : ((ρ.visit (hp.mapAt ph.fixedAttrs)).map Prod.fst).Nodup :=
      ((ρ.perm _).map Prod.fst).nodup_iff.2 (pairs_nodup _)
    exact (List.filter_sublist _).map Prod.fst |>.nodup hnd
  · rw [hrender]
    simp only [List.length_append, List.length_map, List.length_cons, List.length_nil,
      hperm.length_eq]

/-- C16 at a handler with the fixed attributes user and id and a record carrying the
explicit attributes user and n: header, newline, the two explicit lines in the record's
order, then the one fixed line that is not overridden. -/
theorem pretty_handle_writes_witness :
    prettyHandler.render RangeOrder.reversed
        (sampleUserHandler.1.WithAttrs RangeOrder.stored
          [{ Key := "id", Value := Value.Int64Value 7 }] sampleUserHandler.2).2
        (sampleUserHandler.1.WithAttrs RangeOrder.stored
          [{ Key := "id", Value := Value.Int64Value 7 }] sampleUserHandler.2).1
        { sampleRecord LevelWarn "hello" with
          attrs := [{ Key := "user", Value := Value.StringValue "eve" },
                    { Key := "n", Value := Value.BoolValue true }] }
      = ["\x1b[33m09:05:00 [WARN] hello\x1b[0m", "\n",
         "    \x1b[30muser: \"eve\"\x1b[0m\n", "    \x1b[30mn: true\x1b[0m\n",
         "    \x1b[30mid: 7\x1b[0m\n"] :=
  ((pretty_handle_writes RangeOrder.reversed
      (sampleUserHandler.1.WithAttrs RangeOrder.stored
        [{ Key := "id", Value := Value.Int64Value 7 }] sampleUserHandler.2).2
      (sampleUserHandler.1.WithAttrs RangeOrder.stored
        [{ Key := "id", Value := Value.Int64Value 7 }] sampleUserHandler.2).1
      { sampleRecord LevelWarn "hello" with
        attrs := [{ Key := "user", Value := Value.StringValue "eve" },
                  { Key := "n", Value := Value.BoolValue true }] } rfl).1).trans (by decide)

/-! ### The header -/

theorem pad2_length (n : Nat) (hn : n < 100) : (pad2 n).length = 2 := by
  have h : ∀ m : Fin 100, (pad2 m.val).length = 2 := by decide
  exact h ⟨n, hn⟩

/-- C17: the header written by Handle is the color of the level, the time as
HH:MM:SS, " [", the level name, "] ", the message and the reset code; the color table
gives Debug, Info, Warn and Error four pairwise distinct codes, none of them the reset
code, and every other level the reset code (so a level between Info and Warn, or
above Error, is written uncolored); the header is the first write of Handle. -/
theorem pretty_header_format (r : Record) :
    prettyHandler.header r
        = (levelToColor r.Level).getD "\x1b[0m" ++ Time.Format r.Time ++ " ["
          ++ Level.String r.Level ++ "] " ++ r.Message ++ "\x1b[0m"
    ∧ levelToColor LevelDebug = some "\x1b[36m"
    ∧ levelToColor LevelInfo = some "\x1b[32m"
    ∧ levelToColor LevelWarn = some "\x1b[33m"
    ∧ levelToColor LevelError = some "\x1b[31m"
    ∧ [(levelToColor LevelDebug).getD "\x1b[0m", (levelToColor LevelInfo).getD "\x1b[0m",
        (levelToColor LevelWarn).getD "\x1b[0m", (levelToColor LevelError).getD "\x1b[0m",
        "\x1b[0m"].Nodup
    ∧ (∀ l : Level, l ≠ LevelDebug → l ≠ LevelInfo → l ≠ LevelWarn → l ≠ LevelError →
        (levelToColor l).getD "\x1b[0m" = "\x1b[0m")
    ∧ (levelToColor 2).getD "\x1b[0m" = "\x1b[0m"
    ∧ (levelToColor 12).getD "\x1b[0m" = "\x1b[0m"
    ∧ Time.Format r.Time
        = pad2 r.Time.hour ++ ":" ++ pad2 r.Time.minute ++ ":" ++ pad2 r.Time.second
    ∧ (r.Time.hour < 24 → r.Time.minute < 60 → r.Time.second < 60 →
        (Time.Format r.Time).length = 8)
    ∧ Level.String LevelDebug = "DEBUG" ∧ Level.String LevelInfo = "INFO"
    ∧ Level.String LevelWarn = "WARN" ∧ Level.String LevelError = "ERROR"
    ∧ (∀ ρ hp ph, (prettyHandler.render ρ hp ph r).head? = some (prettyHandler.header r)) := by
  refine ⟨?_, rfl, rfl, rfl, rfl, by decide, ?_, rfl, rfl, rfl, ?_, by decide, by decide,
    by decide, by decide, ?_⟩
  · unfold prettyHandler.header
    cases levelToColor r.Level <;> rfl
  · intro l h1 h2 h3 h4
    simp [levelToColor, h1, h2, h3, h4]
  · intro hh hm hs
    have e1 := pad2_length r.Time.hour (by omega)
    have e2 := pad2_length r.Time.minute (by omega)
    have e3 := pad2_length r.Time.second (by omega)
    have e4 : (":" : String).length = 1 := by decide
    simp only [Time.Format, String.length_append, e1, e2, e3, e4]
  · intro ρ hp ph
    rw [render_eq]
    simp [prettyHandler.preamble]

/-- C17 at an Error record logged at 09:05:00 and at a record of level 2. -/
theorem pretty_header_format_witness :
    prettyHandler.header (sampleRecord LevelError "boom") = "\x1b[31m09:05:00 [ERROR] boom\x1b[0m"
    ∧ prettyHandler.header (sampleRecord 2 "hm") = "\x1b[0m09:05:00 [INFO+2] hm\x1b[0m" :=
  ⟨((pretty_header_format (sampleRecord LevelError "boom")).1).trans (by decide),
    ((pretty_header_format (sampleRecord 2 "hm")).1).trans (by decide)⟩

/-! ### Value rendering -/

/-- C18: prettyLogValue puts a value of string kind with text s between two double
quotes; a value that is neither of string kind nor a byte sequence is rendered by its
default text form; and prettyLogAttr(key, v) is four spaces, the dim code, the key,
": ", prettyLogValue(v), the reset code and one newline. -/
theorem pretty_value_rendering (key : String) (v : Value) :
    (∀ s, prettyLogValue (Value.StringValue s) = "\"" ++ s ++ "\"")
    ∧ (v.Kind = Kind.KindString → prettyLogValue v = "\"" ++ v.String ++ "\"")
    ∧ (v.Kind ≠ Kind.KindString → v.anyBytes = none → prettyLogValue v = v.String)
    ∧ (∀ i, prettyLogValue (Value.Int64Value i) = (Value.Int64Value i).String)
    ∧ (∀ n, prettyLogValue (Value.Uint64Value n) = (Value.Uint64Value n).String)
    ∧ (∀ b, prettyLogValue (Value.BoolValue b) = (Value.BoolValue b).String)
    ∧ (∀ t, prettyLogValue (Value.Float64Value t) = t)
    ∧ (∀ t, prettyLogValue (Value.DurationValue t) = t)
    ∧ (∀ t, prettyLogValue (Value.TimeValue t) = t)
    ∧ (∀ t, prettyLogValue (Value.GroupValue t) = t)
    ∧ (∀ t, prettyLogValue (Value.LogValuerValue t) = t)
    ∧ (∀ t, prettyLogValue (Value.AnyValue (Dynamic.other t)) = t)
    ∧ prettyLogAttr key v
        = "    " ++ "\x1b[30m" ++ key ++ ": " ++ prettyLogValue v ++ "\x1b[0m" ++ "\n" := by
  refine ⟨fun _ => rfl, ?_, ?_, fun _ => rfl, fun _ => rfl, fun _ => rfl, fun _ => rfl,
    fun _ => rfl, fun _ => rfl, fun _ => rfl, fun _ => rfl, fun _ => rfl, ?_⟩
  · intro hk
    simp [prettyLogValue, hk]
  · intro hk hb
    cases v with
    | StringValue s => exact absurd rfl hk
    | AnyValue d =>
      cases d with
      | bytes b => simp [Value.anyBytes] at hb
      | other t => rfl
    | _ => rfl
  · have h1 : ("    " : String) ++ "\x1b[30m" = "    \x1b[30m" := by decide
    have h2 : ("\x1b[0m" : String) ++ "\n" = "\x1b[0m\n" := by decide
    unfold prettyLogAttr
    rw [h1, String.append_assoc _ "\x1b[0m" "\n", h2]

/-- C18 at a string, an integer and a boolean value. -/
theorem pretty_value_rendering_witness :
    prettyLogValue (Value.StringValue "a b") = "\"a b\""
    ∧ prettyLogValue (Value.Int64Value (-3)) = "-3"
    ∧ prettyLogAttr "ok" (Value.BoolValue true) = "    \x1b[30mok: true\x1b[0m\n" :=
  ⟨((pretty_value_rendering "k" (Value.StringValue "a b")).1 "a b").trans (by decide),
    ((pretty_value_rendering "k" (Value.Int64Value (-3))).2.2.1 (by decide) rfl).trans (by decide),
    ((pretty_value_rendering "ok" (Value.BoolValue true)).2.2.2.2.2.2.2.2.2.2.2.2).trans
      (by decide)⟩

/-! ### Qualified keys are not injective -/

theorem visit_empty (ρ : RangeOrder) : ρ.visit (∅ : GoMap) = [] :=
  (ρ.perm ∅).eq_nil

theorem visit_single (ρ : RangeOrder) (k v : String) :
    ρ.visit ((∅ : GoMap).insert k v) = [(k, v)] := by
  have hv := ρ.perm ((∅ : GoMap).insert k v)
  have hpairs : GoMap.pairs ((∅ : GoMap).insert k v) = [(k, v)] := by
    simp [GoMap.pairs, AList.insert_entries]
  rw [hpairs] at hv
  exact List.perm_singleton.1 hv

theorem dottedKeyHandler_map (ρ : RangeOrder) (w : Nat) (opts : Option HandlerOptions)
    (x : Value) (hp : Heap) :
    (dottedKeyHandler ρ w opts x hp).2.mapAt (dottedKeyHandler ρ w opts x hp).1.fixedAttrs
      = (∅ : GoMap).insert "a.b" (prettyLogAttr "a.b" x) := by
  unfold dottedKeyHandler
  rw [mapAt_withAttrs_new]
  unfold newFixedAttrs
  have hk : ("" : String) ++ "a.b" = "a.b" := by decide
  simp only [NewPrettyHandler, Heap.mapAt, visit_empty, qualifiedEntries, List.map_cons,
    List.map_nil, hk]
  rfl

theorem dottedKeyCollision_map (ρ ρ' : RangeOrder) (w : Nat) (opts : Option HandlerOptions)
    (x y : Value) (hp : Heap) :
    (dottedKeyCollision ρ ρ' w opts x y hp).2.mapAt
        (dottedKeyCollision ρ ρ' w opts x y hp).1.fixedAttrs
      = (∅ : GoMap).insert "a.b" (prettyLogAttr "a.b" y) := by
  unfold dottedKeyCollision
  rw [mapAt_withAttrs_new]
  unfold newFixedAttrs
  have hmap : (dottedKeyInGroup ρ w opts x hp).2.mapAt (dottedKeyInGroup ρ w opts x hp).1.fixedAttrs
      = (∅ : GoMap).insert "a.b" (prettyLogAttr "a.b" x) := dottedKeyHandler_map ρ w opts x hp
  have hpre : (dottedKeyInGroup ρ w opts x hp).1.groupPrefix = "a." := by
    unfold dottedKeyInGroup dottedKeyHandler
    rw [withAttrs_eq]
    rfl
  have hk : ("a." : String) ++ "b" = "a.b" := by decide
  rw [hmap, hpre, visit_single]
  simp only [qualifiedEntries, List.map_cons, List.map_nil, hk]
  show AList.insert "a.b" (prettyLogAttr "a.b" y)
    (AList.insert "a.b" (prettyLogAttr "a.b" x) (∅ : GoMap)) = _
  rw [AList.insert_insert]

/-- C20: the attribute key "a.b" under no group and the key "b" under the group "a"
have the same qualified key "a.b".  So root.WithAttrs([{"a.b": x}]).WithGroup("a")
.WithAttrs([{"b": y}]) has a fixed mapping with the single entry "a.b", whose line
renders y; the line of x is in it only if it is the same text; and a record with the
explicit attribute "b" rendered through root.WithAttrs([{"a.b": x}]).WithGroup("a")
gets the line of its own value under "a.b" and no fixed line, although the mapping
holds the entry of x at "a.b". -/
theorem pretty_qualified_key_collision (ρ ρ' ρ'' : RangeOrder) (w : Nat)
    (opts : Option HandlerOptions) (hp : Heap) (x y z : Value) (r : Record) :
    (NewPrettyHandler w opts hp).1.groupPrefix ++ "a.b"
        = (dottedKeyInGroup ρ w opts x hp).1.groupPrefix ++ "b"
    ∧ (dottedKeyInGroup ρ w opts x hp).1.groupPrefix ++ "b" = "a.b"
    ∧ GoMap.pairs ((dottedKeyCollision ρ ρ' w opts x y hp).2.mapAt
          (dottedKeyCollision ρ ρ' w opts x y hp).1.fixedAttrs)
        = [("a.b", prettyLogAttr "a.b" y)]
    ∧ ((dottedKeyCollision ρ ρ' w opts x y hp).2.mapAt
          (dottedKeyCollision ρ ρ' w opts x y hp).1.fixedAttrs).lookup "a.b"
        = some (prettyLogAttr "a.b" y)
    ∧ (prettyLogAttr "a.b" x ≠ prettyLogAttr "a.b" y →
        ∀ k, ((dottedKeyCollision ρ ρ' w opts x y hp).2.mapAt
          (dottedKeyCollision ρ ρ' w opts x y hp).1.fixedAttrs).lookup k
            ≠ some (prettyLogAttr "a.b" x))
    ∧ ((dottedKeyInGroup ρ w opts x hp).2.mapAt
          (dottedKeyInGroup ρ w opts x hp).1.fixedAttrs).lookup "a.b"
        = some (prettyLogAttr "a.b" x)
    ∧ (dottedKeyInGroup ρ w opts x hp).1.fixedWritten ρ'' (dottedKeyInGroup ρ w opts x hp).2
          { r with attrs := [{ Key := "b", Value := z }] } = []
    ∧ prettyHandler.render ρ'' (dottedKeyInGroup ρ w opts x hp).2
          (dottedKeyInGroup ρ w opts x hp).1 { r with attrs := [{ Key := "b", Value := z }] }
        = (dottedKeyInGroup ρ w opts x hp).1.preamble
            { r with attrs := [{ Key := "b", Value := z }] } ++ [prettyLogAttr "a.b" z] := by
  have hpre : (dottedKeyInGroup ρ w opts x hp).1.groupPrefix = "a." := by
    unfold dottedKeyInGroup dottedKeyHandler
    rw [withAttrs_eq]
    rfl
  have hk : ("a." : String) ++ "b" = "a.b" := by decide
  have hmapc := dottedKeyCollision_map ρ ρ' w opts x y hp
  have hmapg : (dottedKeyInGroup ρ w opts x hp).2.mapAt (dottedKeyInGroup ρ w opts x hp).1.fixedAttrs
      = (∅ : GoMap).insert "a.b" (prettyLogAttr "a.b" x) := dottedKeyHandler_map ρ w opts x hp
  have hfixed : (dottedKeyInGroup ρ w opts x hp).1.fixedWritten ρ''
      (dottedKeyInGroup ρ w opts x hp).2 { r with attrs := [{ Key := "b", Value := z }] } = [] := by
    unfold prettyHandler.fixedWritten prettyHandler.explicitKeys
    rw [hmapg, visit_single, hpre]
    simp [hk]
  refine ⟨?_, ?_, ?_, ?_, ?_, ?_, hfixed, ?_⟩
  · rw [hpre, hk]
    rfl
  · rw [hpre, hk]
  · rw [hmapc]
    simp [GoMap.pairs, AList.insert_entries]
  · rw [hmapc, AList.lookup_insert]
  · intro hne k hk'
    rw [hmapc] at hk'
    by_cases hkk : k = "a.b"
    · subst hkk
      rw [AList.lookup_insert] at hk'
      exact hne (Option.some.inj hk').symm
    · rw [AList.lookup_insert_ne hkk] at hk'
      simp at hk'
  · rw [hmapg, AList.lookup_insert]
  · rw [render_eq, hfixed]
    simp [prettyHandler.explicitLines, hpre, hk]

/-- C20 at values 1 for "a.b" and 2 for "b": the mapping ends with the single line
"a.b: 2". -/
theorem pretty_qualified_key_collision_witness :
    GoMap.pairs ((dottedKeyCollision RangeOrder.stored RangeOrder.reversed 1 none
          (Value.Int64Value 1) (Value.Int64Value 2) Heap.empty).2.mapAt
        (dottedKeyCollision RangeOrder.stored RangeOrder.reversed 1 none
          (Value.Int64Value 1) (Value.Int64Value 2) Heap.empty).1.fixedAttrs)
      = [("a.b", "    \x1b[30ma.b: 2\x1b[0m\n")] :=
  ((pretty_qualified_key_collision RangeOrder.stored RangeOrder.reversed RangeOrder.stored 1
      none Heap.empty (Value.Int64Value 1) (Value.Int64Value 2) (Value.Int64Value 3)
      (sampleRecord LevelInfo "hello")).2.2.1).trans (by decide)

/-! ## Theorems: nesting parallel handlers -/

theorem handleLoop_all_disabled {σ H : Type} (I : Handler σ H) (hs : List H) (r : Record) (s : σ)
    (hdis : parallelHandler.enabledLoop I hs r.Level = false) :
    parallelHandler.handleLoop I hs r s = (none, s) := by
  induction hs with
  | nil => rfl
  | cons x rest ih =>
    cases hx : I.Enabled x r.Level with
    | false =>
      rw [handleLoop_cons_disabled I x rest r s hx]
      apply ih
      simpa [parallelHandler.enabledLoop, hx] using hdis
    | true => simp [parallelHandler.enabledLoop, hx] at hdis

/-- When the loop stops with an error inside a prefix of the children, the children
after the prefix play no part. -/
theorem handleLoop_append_error {σ H : Type} (I : Handler σ H) (pre rest : List H) (r : Record)
    (s : σ) (e : Error) (hpre : (parallelHandler.handleLoop I pre r s).1 = some e) :
    parallelHandler.handleLoop I (pre ++ rest) r s = parallelHandler.handleLoop I pre r s := by
  induction pre generalizing s with
  | nil => simp [parallelHandler.handleLoop] at hpre
  | cons x pre ih =>
    cases hx : I.Enabled x r.Level with
    | false =>
      rw [handleLoop_cons_disabled I x pre r s hx] at hpre ⊢
      rw [List.cons_append, handleLoop_cons_disabled I x (pre ++ rest) r s hx]
      exact ih s hpre
    | true =>
      cases hres : (I.Handle x r s).1 with
      | some e' =>
        rw [List.cons_append, handleLoop_cons_error I x (pre ++ rest) r s e' hx hres,
          handleLoop_cons_error I x pre r s e' hx hres]
      | none =>
        rw [handleLoop_cons_ok I x pre r s hx hres] at hpre ⊢
        rw [List.cons_append, handleLoop_cons_ok I x (pre ++ rest) r s hx hres]
        exact ih _ hpre

/-- A list of parallel handlers as children behaves as the concatenation of their
children. -/
theorem handleLoop_nested {σ H : Type} (I : Handler σ H) (groups : List (List H)) (r : Record)
    (s : σ) :
    parallelHandler.handleLoop (parallelHandler.ops I) (groups.map NewParallelHandler) r s
      = parallelHandler.handleLoop I groups.flatten r s := by
  induction groups generalizing s with
  | nil => rfl
  | cons xs groups ih =>
    rw [List.map_cons, List.flatten_cons]
    cases hen : parallelHandler.enabledLoop I xs r.Level with
    | false =>
      have hdis : (parallelHandler.ops I).Enabled (NewParallelHandler xs) r.Level = false := hen
      have hskip := handleLoop_all_disabled I xs r s hen
      rw [handleLoop_cons_disabled _ _ _ r s hdis, ih s,
        (handleLoop_append I xs groups.flatten 0 r s (by rw [hskip])).1, hskip]
    | true =>
      have hon : (parallelHandler.ops I).Enabled (NewParallelHandler xs) r.Level = true := hen
      have hsame : (parallelHandler.ops I).Handle (NewParallelHandler xs) r s
          = parallelHandler.handleLoop I xs r s := rfl
      cases hres : (parallelHandler.handleLoop I xs r s).1 with
      | some e =>
        have hres' : ((parallelHandler.ops I).Handle (NewParallelHandler xs) r s).1 = some e := by
          rw [hsame, hres]
        rw [handleLoop_cons_error _ _ _ r s e hon hres', hsame,
          handleLoop_append_error I xs groups.flatten r s e hres]
        rw [Prod.ext_iff]
        exact ⟨hres.symm, rfl⟩
      | none =>
        have hres' : ((parallelHandler.ops I).Handle (NewParallelHandler xs) r s).1 = none := by
          rw [hsame, hres]
        rw [handleLoop_cons_ok _ _ _ r s hon hres', hsame, ih,
          (handleLoop_append I xs groups.flatten 0 r s hres).1]

theorem enabledLoop_nested {σ H : Type} (I : Handler σ H) (groups : List (List H)) (l : Level) :
    parallelHandler.enabledLoop (parallelHandler.ops I) (groups.map NewParallelHandler) l
      = parallelHandler.enabledLoop I groups.flatten l := by
  rw [enabledLoop_eq_any, enabledLoop_eq_any]
  induction groups with
  | nil => rfl
  | cons xs groups ih =>
    rw [List.map_cons, List.any_cons, List.flatten_cons, List.any_append, ih]
    show (parallelHandler.enabledLoop I xs l || _) = _
    rw [enabledLoop_eq_any]

theorem spiesFrom_append {H : Type} (i : Nat) (xs ys : List H) :
    spiesFrom i (xs ++ ys) = spiesFrom i xs ++ spiesFrom (i + xs.length) ys := by
  induction xs generalizing i with
  | nil => simp [spiesFrom]
  | cons x xs ih =>
    have hidx : i + 1 + xs.length = i + (xs.length + 1) := by omega
    have hstep : spiesFrom i (x :: xs ++ ys)
        = { index := i, inner := x } :: spiesFrom (i + 1) (xs ++ ys) := rfl
    rw [hstep, ih, hidx]
    rfl

/-- C19: a parallel handler whose two children are the parallel handlers over xs and
over ys behaves as the parallel handler over xs ++ ys: the same Enabled at every level,
the same result and world from Handle for every record, and, observed with spies on the
children of xs and ys (numbered as in xs ++ ys), the same calls of the children's Handle
in the same order.  Enabled of a child is a function of the child and the level here. -/
theorem parallel_nesting_flattens {σ H : Type} (I : Handler σ H) (xs ys : List H) (l : Level)
    (r : Record) (s : σ) :
    parallelHandler.Enabled (parallelHandler.ops I)
        (NewParallelHandler [NewParallelHandler xs, NewParallelHandler ys]) l
      = parallelHandler.Enabled I (NewParallelHandler (xs ++ ys)) l
    ∧ parallelHandler.Handle (parallelHandler.ops I)
        (NewParallelHandler [NewParallelHandler xs, NewParallelHandler ys]) r s
      = parallelHandler.Handle I (NewParallelHandler (xs ++ ys)) r s
    ∧ (parallelHandler.Handle (parallelHandler.ops (Spy.ops I))
        (NewParallelHandler [NewParallelHandler (spiesFrom 0 xs),
          NewParallelHandler (spiesFrom xs.length ys)]) r (s, [])).2.2
      = parallelHandler.calls I (NewParallelHandler (xs ++ ys)) r s
    ∧ (parallelHandler.Handle (parallelHandler.ops (Spy.ops I))
        (NewParallelHandler [NewParallelHandler (spiesFrom 0 xs),
          NewParallelHandler (spiesFrom xs.length ys)]) r (s, [])).1
      = (parallelHandler.Handle I (NewParallelHandler (xs ++ ys)) r s).1 := by
  have hflat : ∀ (a b : List H), [a, b].flatten = a ++ b := by
    intro a b
    simp
  have hE := enabledLoop_nested I [xs, ys] l
  have hH := handleLoop_nested I [xs, ys] r s
  have hS := handleLoop_nested (Spy.ops I) [spiesFrom 0 xs, spiesFrom xs.length ys] r (s, [])
  have hsp : [spiesFrom 0 xs, spiesFrom xs.length ys].flatten = spiesFrom 0 (xs ++ ys) := by
    rw [spiesFrom_append]
    simp
  rw [hsp] at hS
  simp only [List.flatten_cons, List.flatten_nil, List.append_nil] at hE hH
  refine ⟨hE, hH, ?_, ?_⟩
  · show (parallelHandler.handleLoop (parallelHandler.ops (Spy.ops I))
      ([spiesFrom 0 xs, spiesFrom xs.length ys].map NewParallelHandler) r (s, [])).2.2 = _
    rw [hS]
    rfl
  · show (parallelHandler.handleLoop (parallelHandler.ops (Spy.ops I))
      ([spiesFrom 0 xs, spiesFrom xs.length ys].map NewParallelHandler) r (s, [])).1 = _
    rw [hS, spy_handleLoop]
    rfl

/-- C19 at the children [ok a] and [failing b, ok c]: nested and flat both return the
error of b after calling a and b. -/
theorem parallel_nesting_flattens_witness :
    parallelHandler.Handle (parallelHandler.ops Stub.ops)
        (NewParallelHandler [NewParallelHandler [stubOk "a"],
          NewParallelHandler [stubFailing "b" "disk full", stubOk "c"]])
        (sampleRecord LevelInfo "hello") []
      = (some "disk full", ["a:hello", "b:hello"]) :=
  ((parallel_nesting_flattens Stub.ops [stubOk "a"] [stubFailing "b" "disk full", stubOk "c"]
      LevelInfo (sampleRecord LevelInfo "hello") []).2.1).trans (by decide)

/-! ## Theorems: two goroutines of Handle under any schedule -/

theorem pair_step_inv (ρ₁ ρ₂ : RangeOrder) (hp : Heap) (g₁ g₂ : Goroutine) (m w : Nat)
    (s₀ : List String) (hm₁ : g₁.handler.mutex = m) (hm₂ : g₂.handler.mutex = m)
    (hw₁ : g₁.handler.w = w) (hw₂ : g₂.handler.w = w) (st : Pair) (second : Bool)
    (hinv : Pair.Inv m w s₀ (prettyHandler.render ρ₁ hp g₁.handler g₁.record)
      (prettyHandler.render ρ₂ hp g₂.handler g₂.record) st) :
    Pair.Inv m w s₀ (prettyHandler.render ρ₁ hp g₁.handler g₁.record)
      (prettyHandler.render ρ₂ hp g₂.handler g₂.record) (Pair.step ρ₁ ρ₂ hp g₁ g₂ st second) := by
  obtain ⟨sh, p₁, p₂⟩ := st
  subst hm₁
  subst hw₁
  cases second <;> rcases p₁ with _ | ⟨_ | ⟨wr₁, t₁⟩⟩ | _ <;>
    rcases p₂ with _ | ⟨_ | ⟨wr₂, t₂⟩⟩ | _ <;>
    simp_all [Pair.Inv, Pair.step, Goroutine.step]

theorem pair_run_inv (ρ₁ ρ₂ : RangeOrder) (hp : Heap) (g₁ g₂ : Goroutine) (m w : Nat)
    (s₀ : List String) (hm₁ : g₁.handler.mutex = m) (hm₂ : g₂.handler.mutex = m)
    (hw₁ : g₁.handler.w = w) (hw₂ : g₂.handler.w = w) (schedule : List Bool) (st : Pair)
    (hinv : Pair.Inv m w s₀ (prettyHandler.render ρ₁ hp g₁.handler g₁.record)
      (prettyHandler.render ρ₂ hp g₂.handler g₂.record) st) :
    Pair.Inv m w s₀ (prettyHandler.render ρ₁ hp g₁.handler g₁.record)
      (prettyHandler.render ρ₂ hp g₂.handler g₂.record)
      (Pair.run ρ₁ ρ₂ hp g₁ g₂ schedule st) := by
  induction schedule generalizing st with
  | nil => exact hinv
  | cons b rest ih =>
    exact ih _ (pair_step_inv ρ₁ ρ₂ hp g₁ g₂ m w s₀ hm₁ hm₂ hw₁ hw₂ st b hinv)

/-- A step appends at most to the writer of the goroutine that takes it. -/
theorem goroutine_step_sink (ρ : RangeOrder) (hp : Heap) (g : Goroutine) (sh : Shared)
    (p : Phase) (w : Nat) :
    (∃ ext, (g.step ρ hp sh p).1.sink w = sh.sink w ++ ext)
    ∧ (w ≠ g.handler.w → (g.step ρ hp sh p).1.sink w = sh.sink w) := by
  rcases p with _ | ⟨_ | ⟨wr, t⟩⟩ | _
  · by_cases hh : sh.held g.handler.mutex = true
    · exact ⟨⟨[], by simp [Goroutine.step, hh]⟩, fun _ => by simp [Goroutine.step, hh]⟩
    · exact ⟨⟨[], by simp [Goroutine.step, hh]⟩, fun _ => by simp [Goroutine.step, hh]⟩
  · exact ⟨⟨[], by simp [Goroutine.step]⟩, fun _ => rfl⟩
  · constructor
    · by_cases hw : w = g.handler.w
      · subst hw
        exact ⟨[wr], by simp [Goroutine.step]⟩
      · exact ⟨[], by simp [Goroutine.step, Function.update_noteq hw]⟩
    · intro hw
      simp [Goroutine.step, Function.update_noteq hw]
  · exact ⟨⟨[], by simp [Goroutine.step]⟩, fun _ => rfl⟩

theorem pair_run_sink (ρ₁ ρ₂ : RangeOrder) (hp : Heap) (g₁ g₂ : Goroutine) (schedule : List Bool)
    (st : Pair) (w : Nat) :
    (∃ ext, (Pair.run ρ₁ ρ₂ hp g₁ g₂ schedule st).shared.sink w = st.shared.sink w ++ ext)
    ∧ (w ≠ g₁.handler.w → w ≠ g₂.handler.w →
        (Pair.run ρ₁ ρ₂ hp g₁ g₂ schedule st).shared.sink w = st.shared.sink w) := by
  induction schedule generalizing st with
  | nil => exact ⟨⟨[], by simp [Pair.run]⟩, fun _ _ => rfl⟩
  | cons b rest ih =>
    have hstep : Pair.run ρ₁ ρ₂ hp g₁ g₂ (b :: rest) st
        = Pair.run ρ₁ ρ₂ hp g₁ g₂ rest (Pair.step ρ₁ ρ₂ hp g₁ g₂ st b) := rfl
    rw [hstep]
    obtain ⟨⟨ext, hext⟩, hother⟩ := ih (Pair.step ρ₁ ρ₂ hp g₁ g₂ st b)
    have hone : (∃ e, (Pair.step ρ₁ ρ₂ hp g₁ g₂ st b).shared.sink w = st.shared.sink w ++ e)
        ∧ (w ≠ g₁.handler.w → w ≠ g₂.handler.w →
            (Pair.step ρ₁ ρ₂ hp g₁ g₂ st b).shared.sink w = st.shared.sink w) := by
      cases b with
      | false =>
        have h := goroutine_step_sink ρ₁ hp g₁ st.shared st.first w
        exact ⟨by simpa [Pair.step] using h.1, fun h1 _ => by simpa [Pair.step] using h.2 h1⟩
      | true =>
        have h := goroutine_step_sink ρ₂ hp g₂ st.shared st.second w
        exact ⟨by simpa [Pair.step] using h.1, fun _ h2 => by simpa [Pair.step] using h.2 h2⟩
    obtain ⟨⟨e, he⟩, hone'⟩ := hone
    refine ⟨⟨e ++ ext, ?_⟩, ?_⟩
    · rw [hext, he, List.append_assoc]
    · intro h1 h2
      rw [hother h1 h2, hone' h1 h2]

theorem pair_run_append (ρ₁ ρ₂ : RangeOrder) (hp : Heap) (g₁ g₂ : Goroutine)
    (l₁ l₂ : List Bool) (st : Pair) :
    Pair.run ρ₁ ρ₂ hp g₁ g₂ (l₁ ++ l₂) st
      = Pair.run ρ₁ ρ₂ hp g₁ g₂ l₂ (Pair.run ρ₁ ρ₂ hp g₁ g₂ l₁ st) := by
  simp [Pair.run, List.foldl_append]

/-- Left alone, the first goroutine makes its remaining writes and returns. -/
theorem run_first_locked (ρ₁ ρ₂ : RangeOrder) (hp : Heap) (g₁ g₂ : Goroutine) (t : List String)
    (sh : Shared) (p₂ : Phase) :
    (Pair.run ρ₁ ρ₂ hp g₁ g₂ (List.replicate (t.length + 1) false)
        { shared := sh, first := Phase.locked t, second := p₂ }).first = Phase.returned
    ∧ (Pair.run ρ₁ ρ₂ hp g₁ g₂ (List.replicate (t.length + 1) false)
        { shared := sh, first := Phase.locked t, second := p₂ }).second = p₂
    ∧ (Pair.run ρ₁ ρ₂ hp g₁ g₂ (List.replicate (t.length + 1) false)
        { shared := sh, first := Phase.locked t, second := p₂ }).shared.held g₁.handler.mutex
        = false := by
  induction t generalizing sh with
  | nil => simp [Pair.run, Pair.step, Goroutine.step]
  | cons wr rest ih =>
    have hrep : List.replicate ((wr :: rest).length + 1) false
        = false :: List.replicate (rest.length + 1) false := rfl
    rw [hrep]
    exact ih _

/-- Left alone, the second goroutine makes its remaining writes and returns. -/
theorem run_second_locked (ρ₁ ρ₂ : RangeOrder) (hp : Heap) (g₁ g₂ : Goroutine) (t : List String)
    (sh : Shared) (p₁ : Phase) :
    (Pair.run ρ₁ ρ₂ hp g₁ g₂ (List.replicate (t.length + 1) true)
        { shared := sh, first := p₁, second := Phase.locked t }).first = p₁
    ∧ (Pair.run ρ₁ ρ₂ hp g₁ g₂ (List.replicate (t.length + 1) true)
        { shared := sh, first := p₁, second := Phase.locked t }).second = Phase.returned := by
  induction t generalizing sh with
  | nil => simp [Pair.run, Pair.step, Goroutine.step]
  | cons wr rest ih =>
    have hrep : List.replicate ((wr :: rest).length + 1) true
        = true :: List.replicate (rest.length + 1) true := rfl
    rw [hrep]
    exact ih _

/-- The schedule that runs the first goroutine to its end and then the second one ends
with both returned. -/
theorem run_one_after_the_other (ρ₁ ρ₂ : RangeOrder) (hp : Heap) (g₁ g₂ : Goroutine)
    (sh : Shared) (hm : g₁.handler.mutex = g₂.handler.mutex)
    (hfree : sh.held g₁.handler.mutex = false) :
    (Pair.run ρ₁ ρ₂ hp g₁ g₂
        (List.replicate ((prettyHandler.render ρ₁ hp g₁.handler g₁.record).length + 2) false
          ++ List.replicate ((prettyHandler.render ρ₂ hp g₂.handler g₂.record).length + 2) true)
        { shared := sh, first := Phase.started, second := Phase.started }).first = Phase.returned
    ∧ (Pair.run ρ₁ ρ₂ hp g₁ g₂
        (List.replicate ((prettyHandler.render ρ₁ hp g₁.handler g₁.record).length + 2) false
          ++ List.replicate ((prettyHandler.render ρ₂ hp g₂.handler g₂.record).length + 2) true)
        { shared := sh, first := Phase.started, second := Phase.started }).second
        = Phase.returned := by
  rw [pair_run_append]
  have hrep₁ : ∀ n, List.replicate (n + 2) false = false :: List.replicate (n + 1) false :=
    fun _ => rfl
  have hrep₂ : ∀ n, List.replicate (n + 2) true = true :: List.replicate (n + 1) true :=
    fun _ => rfl
  have hfirst : Pair.run ρ₁ ρ₂ hp g₁ g₂
      (List.replicate ((prettyHandler.render ρ₁ hp g₁.handler g₁.record).length + 2) false)
      { shared := sh, first := Phase.started, second := Phase.started }
      = Pair.run ρ₁ ρ₂ hp g₁ g₂
        (List.replicate ((prettyHandler.render ρ₁ hp g₁.handler g₁.record).length + 1) false)
        { shared := { sh with held := Function.update sh.held g₁.handler.mutex true },
          first := Phase.locked (prettyHandler.render ρ₁ hp g₁.handler g₁.record),
          second := Phase.started } := by
    rw [hrep₁]
    simp [Pair.run, Pair.step, Goroutine.step, hfree]
  have h₁ := run_first_locked ρ₁ ρ₂ hp g₁ g₂ (prettyHandler.render ρ₁ hp g₁.handler g₁.record)
    { sh with held := Function.update sh.held g₁.handler.mutex true } Phase.started
  rw [← hfirst] at h₁
  obtain ⟨hf, hs, hh⟩ := h₁
  generalize Pair.run ρ₁ ρ₂ hp g₁ g₂
    (List.replicate ((prettyHandler.render ρ₁ hp g₁.handler g₁.record).length + 2) false)
    { shared := sh, first := Phase.started, second := Phase.started } = mid at hf hs hh ⊢
  obtain ⟨shm, p₁, p₂⟩ := mid
  simp only at hf hs hh
  subst hf
  subst hs
  have hsecond : Pair.run ρ₁ ρ₂ hp g₁ g₂
      (List.replicate ((prettyHandler.render ρ₂ hp g₂.handler g₂.record).length + 2) true)
      { shared := shm, first := Phase.returned, second := Phase.started }
      = Pair.run ρ₁ ρ₂ hp g₁ g₂
        (List.replicate ((prettyHandler.render ρ₂ hp g₂.handler g₂.record).length + 1) true)
        { shared := { shm with held := Function.update shm.held g₂.handler.mutex true },
          first := Phase.returned,
          second := Phase.locked (prettyHandler.render ρ₂ hp g₂.handler g₂.record) } := by
    rw [hrep₂]
    rw [hm] at hh
    simp [Pair.run, Pair.step, Goroutine.step, hh]
  rw [hsecond]
  exact run_second_locked ρ₁ ρ₂ hp g₁ g₂ _ _ Phase.returned

/-- C13: two goroutines started by Handle on pretty handlers that share the mutex and
the writer, run under any schedule of atomic steps from a state where the mutex is
free: at every moment the writer holds what it held before followed by a prefix of the
first record's block followed by the second's, or of the second's followed by the
first's (a block is never interleaved with the other one); once both goroutines have
returned, it holds both complete blocks, in one of the two orders; other writers are
not written to; the schedule that runs one goroutine after the other does end with both
returned; and handlers derived by WithAttrs or WithGroup share the mutex and the
writer of the handler they come from. -/
theorem pretty_concurrent_blocks_contiguous (ρ₁ ρ₂ : RangeOrder) (hp : Heap)
    (h₁ h₂ : prettyHandler) (r₁ r₂ : Record) (sh : Shared) (schedule : List Bool)
    (hmut : h₁.mutex = h₂.mutex) (hw : h₁.w = h₂.w) (hfree : sh.held h₁.mutex = false) :
    (∃ written,
        (Pair.run ρ₁ ρ₂ hp (h₁.Handle r₁).2 (h₂.Handle r₂).2 schedule
          { shared := sh, first := Phase.started, second := Phase.started }).shared.sink h₁.w
          = sh.sink h₁.w ++ written
        ∧ (List.IsPrefix written
              (prettyHandler.render ρ₁ hp h₁ r₁ ++ prettyHandler.render ρ₂ hp h₂ r₂)
            ∨ List.IsPrefix written
              (prettyHandler.render ρ₂ hp h₂ r₂ ++ prettyHandler.render ρ₁ hp h₁ r₁)))
    ∧ ((Pair.run ρ₁ ρ₂ hp (h₁.Handle r₁).2 (h₂.Handle r₂).2 schedule
          { shared := sh, first := Phase.started, second := Phase.started }).first
          = Phase.returned →
        (Pair.run ρ₁ ρ₂ hp (h₁.Handle r₁).2 (h₂.Handle r₂).2 schedule
          { shared := sh, first := Phase.started, second := Phase.started }).second
          = Phase.returned →
        (Pair.run ρ₁ ρ₂ hp (h₁.Handle r₁).2 (h₂.Handle r₂).2 schedule
          { shared := sh, first := Phase.started, second := Phase.started }).shared.sink h₁.w
            = sh.sink h₁.w ++ prettyHandler.render ρ₁ hp h₁ r₁ ++ prettyHandler.render ρ₂ hp h₂ r₂
          ∨ (Pair.run ρ₁ ρ₂ hp (h₁.Handle r₁).2 (h₂.Handle r₂).2 schedule
          { shared := sh, first := Phase.started, second := Phase.started }).shared.sink h₁.w
            = sh.sink h₁.w ++ prettyHandler.render ρ₂ hp h₂ r₂ ++ prettyHandler.render ρ₁ hp h₁ r₁)
    ∧ (∀ w, w ≠ h₁.w →
        (Pair.run ρ₁ ρ₂ hp (h₁.Handle r₁).2 (h₂.Handle r₂).2 schedule
          { shared := sh, first := Phase.started, second := Phase.started }).shared.sink w
          = sh.sink w)
    ∧ ((Pair.run ρ₁ ρ₂ hp (h₁.Handle r₁).2 (h₂.Handle r₂).2
          (List.replicate ((prettyHandler.render ρ₁ hp h₁ r₁).length + 2) false
            ++ List.replicate ((prettyHandler.render ρ₂ hp h₂ r₂).length + 2) true)
          { shared := sh, first := Phase.started, second := Phase.started }).first
          = Phase.returned
        ∧ (Pair.run ρ₁ ρ₂ hp (h₁.Handle r₁).2 (h₂.Handle r₂).2
          (List.replicate ((prettyHandler.render ρ₁ hp h₁ r₁).length + 2) false
            ++ List.replicate ((prettyHandler.render ρ₂ hp h₂ r₂).length + 2) true)
          { shared := sh, first := Phase.started, second := Phase.started }).second
          = Phase.returned)
    ∧ (∀ ρ a g hp', (h₁.WithAttrs ρ a hp').1.mutex = h₁.mutex
        ∧ (h₁.WithAttrs ρ a hp').1.w = h₁.w
        ∧ (h₁.WithGroup g hp').1.mutex = h₁.mutex ∧ (h₁.WithGroup g hp').1.w = h₁.w) := by
  have hinv := pair_run_inv ρ₁ ρ₂ hp (h₁.Handle r₁).2 (h₂.Handle r₂).2 h₁.mutex h₁.w
    (sh.sink h₁.w) rfl hmut.symm rfl hw.symm schedule
    { shared := sh, first := Phase.started, second := Phase.started } ⟨hfree, rfl⟩
  have hsink := pair_run_sink ρ₁ ρ₂ hp (h₁.Handle r₁).2 (h₂.Handle r₂).2 schedule
    { shared := sh, first := Phase.started, second := Phase.started }
  have hb₁ : prettyHandler.render ρ₁ hp (h₁.Handle r₁).2.handler (h₁.Handle r₁).2.record
      = prettyHandler.render ρ₁ hp h₁ r₁ := rfl
  have hb₂ : prettyHandler.render ρ₂ hp (h₂.Handle r₂).2.handler (h₂.Handle r₂).2.record
      = prettyHandler.render ρ₂ hp h₂ r₂ := rfl
  rw [hb₁, hb₂] at hinv
  refine ⟨?_, ?_, ?_, ?_, ?_⟩
  · obtain ⟨ext, hext⟩ := (hsink h₁.w).1
    refine ⟨ext, hext, ?_⟩
    simp only at hext
    generalize Pair.run ρ₁ ρ₂ hp (h₁.Handle r₁).2 (h₂.Handle r₂).2 schedule
      { shared := sh, first := Phase.started, second := Phase.started } = fin at hinv hext
    obtain ⟨shf, p₁, p₂⟩ := fin
    rcases p₁ with _ | t₁ | _ <;> rcases p₂ with _ | t₂ | _ <;>
      simp only [Pair.Inv] at hinv hext
    · have h := hinv.2
      rw [hext] at h
      have h' : ext = [] := by simpa using h
      subst h'
      exact Or.inl List.nil_prefix
    · have h := hinv.2
      rw [hext] at h
      simp only [List.append_assoc] at h
      have h' := List.append_cancel_left h
      exact Or.inr ⟨t₂ ++ prettyHandler.render ρ₁ hp h₁ r₁, by rw [← List.append_assoc, h']⟩
    · have h := hinv.2
      rw [hext] at h
      have h' := List.append_cancel_left h
      exact Or.inr ⟨prettyHandler.render ρ₁ hp h₁ r₁, by rw [h']⟩
    · have h := hinv.2
      rw [hext] at h
      simp only [List.append_assoc] at h
      have h' := List.append_cancel_left h
      exact Or.inl ⟨t₁ ++ prettyHandler.render ρ₂ hp h₂ r₂, by rw [← List.append_assoc, h']⟩
    · have h := hinv.2
      rw [hext] at h
      simp only [List.append_assoc] at h
      have h' := List.append_cancel_left h
      exact Or.inr ⟨t₁, h'⟩
    · have h := hinv.2
      rw [hext] at h
      have h' := List.append_cancel_left h
      exact Or.inl ⟨prettyHandler.render ρ₂ hp h₂ r₂, by rw [h']⟩
    · have h := hinv.2
      rw [hext] at h
      simp only [List.append_assoc] at h
      have h' := List.append_cancel_left h
      exact Or.inl ⟨t₂, h'⟩
    · rcases hinv.2 with h | h
      · rw [hext] at h
        simp only [List.append_assoc] at h
        exact Or.inl ⟨[], by rw [List.append_nil, List.append_cancel_left h]⟩
      · rw [hext] at h
        simp only [List.append_assoc] at h
        exact Or.inr ⟨[], by rw [List.append_nil, List.append_cancel_left h]⟩
  · intro hf hs
    generalize Pair.run ρ₁ ρ₂ hp (h₁.Handle r₁).2 (h₂.Handle r₂).2 schedule
      { shared := sh, first := Phase.started, second := Phase.started } = fin at hinv hf hs ⊢
    obtain ⟨shf, p₁, p₂⟩ := fin
    simp only at hf hs
    subst hf
    subst hs
    simp only [Pair.Inv] at hinv
    exact hinv.2
  · intro w hne
    have hne₂ : w ≠ (h₂.Handle r₂).2.handler.w := by
      show w ≠ h₂.w
      rw [← hw]
      exact hne
    exact (hsink w).2 hne hne₂
  · exact run_one_after_the_other ρ₁ ρ₂ hp (h₁.Handle r₁).2 (h₂.Handle r₂).2 sh hmut hfree
  · intro ρ a g hp'
    rw [withAttrs_eq]
    exact ⟨rfl, rfl, rfl, rfl⟩

/-- C13 at the handler with the fixed attribute user = "bob" and a handler derived from
it by WithGroup, logging "one" and "two" while the scheduler lets them take turns: the
second goroutine gets the mutex first, and the writer receives its whole block and then
the whole block of the first. -/
theorem pretty_concurrent_blocks_contiguous_witness :
    (Pair.run RangeOrder.stored RangeOrder.stored sampleUserHandler.2
        (sampleUserHandler.1.Handle (sampleRecord LevelInfo "one")).2
        ((sampleUserHandler.1.WithGroup "g" sampleUserHandler.2).1.Handle
          (sampleRecord LevelWarn "two")).2 (takingTurns 10)
        { shared := Shared.initial, first := Phase.started, second := Phase.started }).shared.sink
        sampleUserHandler.1.w
      = ["\x1b[33m09:05:00 [WARN] two\x1b[0m", "\n", "    \x1b[30muser: \"bob\"\x1b[0m\n",
         "\x1b[32m09:05:00 [INFO] one\x1b[0m", "\n", "    \x1b[30muser: \"bob\"\x1b[0m\n"] := by
  have h := (pretty_concurrent_blocks_contiguous RangeOrder.stored RangeOrder.stored
    sampleUserHandler.2 sampleUserHandler.1 (sampleUserHandler.1.WithGroup "g" sampleUserHandler.2).1
    (sampleRecord LevelInfo "one") (sampleRecord LevelWarn "two") Shared.initial (takingTurns 10)
    rfl rfl rfl).2.1 (by decide) (by decide)
  rcases h with h | h
  · exact absurd h (by decide)
  · exact h.trans (by decide)

/-- Two handlers built by separate calls of NewPrettyHandler on one writer have
different mutexes, and their blocks can interleave: when the goroutines take turns the
writer receives the two headers first and the two newlines after them. -/
theorem separate_roots_interleave :
    (NewPrettyHandler 1 none Heap.empty).1.mutex ≠ secondRoot.1.mutex
    ∧ (Pair.run RangeOrder.stored RangeOrder.stored secondRoot.2
        ((NewPrettyHandler 1 none Heap.empty).1.Handle (sampleRecord LevelInfo "one")).2
        (secondRoot.1.Handle (sampleRecord LevelWarn "two")).2 (takingTurns 10)
        { shared := Shared.initial, first := Phase.started, second := Phase.started }).shared.sink 1
      = ["\x1b[33m09:05:00 [WARN] two\x1b[0m", "\x1b[32m09:05:00 [INFO] one\x1b[0m", "\n", "\n"] := by
  decide

end Slogging
